import Mathlib

/-!
Shallow embedding of the Morse Micro host driver control plane:
the command transport of src/command.c (morse_cmd_tx and
morse_cmd_resp_process) and the TWT negotiation engine of src/twt.c,
together with theorems checking the specification claims against it.

Machine integers are modelled as Nat with an explicit modulus where
the C code can wrap (u64 arithmetic in the wake-interval scheduler).
Raw wire encodings (le16 fields, the TWT request-type bitfield) are
abstracted to the decoded values the code itself works on; the setup
command carried inside params.req_type is tracked as an explicit field.
-/

namespace Morse

/-! ### Linux errno values used by the embedded code (asm-generic values) -/

def ENOMEM : Int := 12

def ENODEV : Int := 19

def EINVAL : Int := 22

def EBADSLT : Int := 57

def ETIMEDOUT : Int := 110

/-! ### Command transport (src/command.c, morse_cmd_tx) -/

/-- From src/command.c: at most this many total attempts are made per command. -/
def MM_MAX_COMMAND_RETRY : Nat := 2

/-- Modelled from the spec: the host-id packing constants are defined in
command.h, which is not among the sources.  Per the spec, host_id is a u16
equal to the sequence counter shifted left past the retry bits, or-ed with
the retry counter; we model an 8-bit split. -/
def MORSE_CMD_HOST_ID_SEQ_SHIFT : Nat := 8

/-- Modelled from the spec: the sequence counter wraps back to 1 (skipping 0)
once it exceeds this bound. -/
def MORSE_CMD_HOST_ID_SEQ_MAX : Nat := 255

/-- Modelled from the spec: mask selecting the sequence bits of host_id. -/
def MORSE_CMD_HOST_ID_SEQ_MASK : Nat := 0xFF00

/-- Modelled from the spec: mask selecting the retry bits of host_id. -/
def MORSE_CMD_HOST_ID_RETRY_MASK : Nat := 0xFF

/-- The caller-controlled header fields of the command being sent; host_id is
assigned inside morse_cmd_tx and is therefore not part of this record. -/
structure MorseCmdHeaderFields where
  message_id : Nat
  len : Nat
  vif_id : Nat
deriving DecidableEq

/-- One frame as handed to morse_skbq_skb_tx: the command bytes, of which we
track the header fields (the payload is copied unchanged from the caller
buffer on every attempt, exactly like the header fields other than host_id). -/
structure TxFrame where
  message_id : Nat
  len : Nat
  vif_id : Nat
  host_id : Nat
deriving DecidableEq

/-- Outcome of one iteration of the retry loop in morse_cmd_tx, as decided by
the environment: skb allocation failure, a nonzero return of
morse_skbq_skb_tx, expiry of wait_for_completion_timeout, or completion with
the result recorded by morse_cmd_resp_process (resp->status when a response
buffer was supplied, resp_cb->ret otherwise). -/
inductive AttemptOutcome
  | allocFail
  | txErr (e : Int)
  | waitTimeout
  | completed (res : Int)
deriving DecidableEq

/-- Sequence-counter update at the top of morse_cmd_tx: increment, wrapping
to 1 past MORSE_CMD_HOST_ID_SEQ_MAX. -/
def morse_cmd_seq_next (cmd_seq : Nat) : Nat :=
  let s := cmd_seq + 1
  if MORSE_CMD_HOST_ID_SEQ_MAX < s then 1 else s

/-- The do-while retry loop of morse_cmd_tx.  `retriesLeft` is the number of
further iterations the while condition would still allow
(MM_MAX_COMMAND_RETRY - 1 - retry); the loop continues only while the
recorded result equals -ETIMEDOUT.  Returns the final ret together with the
list of frames actually transmitted (alloc/tx failures transmit nothing). -/
def morse_cmd_tx_loop (env : Nat → AttemptOutcome) (cmd : MorseCmdHeaderFields)
    (hostIdBase : Nat) (retriesLeft : Nat) (retry : Nat) : Int × List TxFrame :=
  let frame : TxFrame :=
    { message_id := cmd.message_id, len := cmd.len, vif_id := cmd.vif_id,
      host_id := hostIdBase ||| retry }
  match env retry with
  | .allocFail => (-ENOMEM, [])
  | .txErr e => (e, [])
  | .waitTimeout =>
    match retriesLeft with
    | 0 => (-ETIMEDOUT, [frame])
    | rl + 1 =>
      let r := morse_cmd_tx_loop env cmd hostIdBase rl (retry + 1)
      (r.1, frame :: r.2)
  | .completed res =>
    if res = -ETIMEDOUT then
      match retriesLeft with
      | 0 => (res, [frame])
      | rl + 1 =>
        let r := morse_cmd_tx_loop env cmd hostIdBase rl (retry + 1)
        (r.1, frame :: r.2)
    else (res, [frame])
termination_by retriesLeft

/-- morse_cmd_tx: if the device has no command queue fail with -ENODEV
without transmitting; otherwise advance the sequence counter, build the
host-id base and run the retry loop.  Result: (ret, transmitted frames,
new sequence counter). -/
def morse_cmd_tx (hasCmdQ : Bool) (cmd_seq : Nat) (cmd : MorseCmdHeaderFields)
    (env : Nat → AttemptOutcome) : Int × List TxFrame × Nat :=
  if !hasCmdQ then (-ENODEV, [], cmd_seq)
  else
    let seq := morse_cmd_seq_next cmd_seq
    let hostIdBase := seq <<< MORSE_CMD_HOST_ID_SEQ_SHIFT
    let r := morse_cmd_tx_loop env cmd hostIdBase (MM_MAX_COMMAND_RETRY - 1) 0
    (r.1, r.2, seq)

/-! ### Response demultiplexer (src/command.c, morse_cmd_resp_process) -/

/-- Modelled from the spec: sizeof(struct morse_cmd_header) is defined in
command.h, which is not among the sources.  Per the spec the header is four
u16 fields (message_id, length, target_id, host_id), 8 bytes. -/
def MORSE_CMD_HEADER_SIZE : Nat := 8

/-- Modelled from the spec: sizeof(struct morse_resp), a header followed by a
u32 status. -/
def MORSE_RESP_MIN_SIZE : Nat := MORSE_CMD_HEADER_SIZE + 4

/-- The inbound message handed to morse_cmd_resp_process: decoded header
fields, the status scalar, the raw bytes of the whole message (header
included), and the confirmation flag bit of hdr.flags. -/
structure MorseRespMsg where
  message_id : Nat
  host_id : Nat
  len : Nat
  status : Int
  bytes : List Nat
  isCfm : Bool
deriving DecidableEq

/-- The pending command: the header fields of the tx-pending command skb
together with its morse_cmd_resp_cb control block (expected length,
destination buffer contents, recorded result). -/
structure PendingCmd where
  message_id : Nat
  host_id : Nat
  length : Nat
  dest : Option (List Nat)
  ret : Int
deriving DecidableEq

/-- The shared pending-command bookkeeping guarded by cmd_lock: the pending
command (if any) and whether a waiter completion is installed
(mors->cmd_comp not NULL). -/
structure CmdRespState where
  pending : Option PendingCmd
  waiterPresent : Bool
deriving DecidableEq

/-- Everything morse_cmd_resp_process does on one inbound message: the new
bookkeeping, whether complete() was called, whether the inbound skb was
freed, whether the message was routed to the asynchronous event path,
whether it was treated as matching the pending command, and how many bytes
were copied into the caller destination buffer. -/
structure RespProcessOut where
  st : CmdRespState
  signaled : Bool
  freedInbound : Bool
  handedToEventPath : Bool
  matched : Bool
  copiedLen : Nat
deriving DecidableEq

/-- morse_cmd_resp_process.  Non-confirmations go to the event path.  A
confirmation is a late response (not matched) if there is no pending
command, the message ids differ, or the sequence bits of the host ids
differ; a late response frees the inbound buffer without completing anyone
and without touching the bookkeeping.  A matched response with a
destination buffer and an expected length of at least sizeof(morse_resp)
copies min(expected, declared + header size) bytes and records ret 0,
otherwise it records the raw status; then the waiter, if installed, is
completed and the inbound buffer freed. -/
def morse_cmd_resp_process (st : CmdRespState) (src : MorseRespMsg) : RespProcessOut :=
  if !src.isCfm then
    { st := st, signaled := false, freedInbound := true, handedToEventPath := true,
      matched := false, copiedLen := 0 }
  else
    match st.pending with
    | none =>
      { st := st, signaled := false, freedInbound := true, handedToEventPath := false,
        matched := false, copiedLen := 0 }
    | some p =>
      if p.message_id ≠ src.message_id ∨
          p.host_id &&& MORSE_CMD_HOST_ID_SEQ_MASK ≠
            src.host_id &&& MORSE_CMD_HOST_ID_SEQ_MASK then
        { st := st, signaled := false, freedInbound := true, handedToEventPath := false,
          matched := false, copiedLen := 0 }
      else if MORSE_RESP_MIN_SIZE ≤ p.length ∧ p.dest.isSome = true then
        let n := min p.length (src.len + MORSE_CMD_HEADER_SIZE)
        let d := p.dest.getD []
        let p' : PendingCmd := { p with ret := 0, dest := some (src.bytes.take n ++ d.drop n) }
        { st := { st with pending := some p' }, signaled := st.waiterPresent,
          freedInbound := true, handedToEventPath := false, matched := true, copiedLen := n }
      else
        let p' : PendingCmd := { p with ret := src.status }
        { st := { st with pending := some p' }, signaled := st.waiterPresent,
          freedInbound := true, handedToEventPath := false, matched := true, copiedLen := 0 }

/-! ### TWT wake-interval codec (src/twt.c, twt_calculate_wake_interval) -/

/-- twt_calculate_wake_interval: wake interval from mantissa and exponent. -/
def twt_calculate_wake_interval (mantissa : Nat) (exponent : Nat) : Nat :=
  mantissa * 2 ^ exponent

/-- The while loop of twt_calculate_wake_interval_fields: halve the mantissa
(a right shift) and bump the exponent until the mantissa fits in a u16. -/
def twt_calculate_wake_interval_fields_loop (m : Nat) (e : Nat) : Nat × Nat :=
  if h : 65535 < m then twt_calculate_wake_interval_fields_loop (m / 2) (e + 1)
  else (m, e)
termination_by m
decreasing_by omega

/-- twt_calculate_wake_interval_fields: returns the re-encoded interval
together with the computed mantissa and exponent. -/
def twt_calculate_wake_interval_fields (wake_interval : Nat) : Nat × Nat × Nat :=
  let p := twt_calculate_wake_interval_fields_loop wake_interval 0
  (twt_calculate_wake_interval p.1 p.2, p.1, p.2)

/-! ### TWT negotiation engine data model (src/twt.c) -/

/-- Modelled from the spec: the per-station agreement array bound
(MORSE_TWT_AGREEMENTS_MAX_PER_STA) is declared in twt.h, which is not among
the sources; the flow id is a 3-bit field, giving 8 flows. -/
def MORSE_TWT_AGREEMENTS_MAX_PER_STA : Nat := 8

/-- The per-flow negotiation states (enum morse_twt_state of twt.h, as used
throughout src/twt.c; NO_AGREEMENT is the zero-initialised initial state). -/
inductive MorseTwtState
  | NO_AGREEMENT
  | CONSIDER_REQUEST
  | CONSIDER_SUGGEST
  | CONSIDER_DEMAND
  | CONSIDER_GROUPING
  | AGREEMENT
deriving DecidableEq, Inhabited

/-- The TWT setup commands (enum ieee80211_twt_setup_cmd, values 0..7;
commands 0..3 are requests, 4..7 responses). -/
inductive TwtSetupCmd
  | REQUEST
  | SUGGEST
  | DEMAND
  | GROUPING
  | ACCEPT
  | ALTERNATE
  | DICTATE
  | REJECT
deriving DecidableEq, Inhabited

/-- struct morse_twt_agreement_data: the decoded wake parameters, plus the
setup command carried inside params.req_type (the remaining raw wire fields
are abstracted away; they are recomputed from these values on transmission). -/
structure MorseTwtAgreementData where
  wake_time_us : Nat
  wake_interval_us : Nat
  wake_duration_us : Nat
  cmd : TwtSetupCmd
deriving DecidableEq, Inhabited

/-- struct morse_twt_agreement: per-flow state and data.  Membership of the
agreement in a wake-interval list is represented externally, by the
reference (station address, flow id) appearing in a bucket. -/
structure MorseTwtAgreement where
  state : MorseTwtState
  data : MorseTwtAgreementData
deriving DecidableEq, Inhabited

/-- Reference to the agreement of a given station address and flow id; this
plays the role of the intrusive list node &agr->list. -/
abbrev AgrRef := Nat × Nat

/-- struct morse_twt_sta. -/
structure MorseTwtSta where
  addr : Nat
  dialog_token : Nat
  action_is_pending : Bool
  agreements : List MorseTwtAgreement
deriving DecidableEq

/-- The payload of struct morse_twt_event: a setup (command plus agreement
data) or a teardown. -/
inductive MorseTwtEventBody
  | setup (cmd : TwtSetupCmd) (agr_data : MorseTwtAgreementData)
  | teardown
deriving DecidableEq

/-- struct morse_twt_event. -/
structure MorseTwtEvent where
  addr : Nat
  flow_id : Nat
  body : MorseTwtEventBody
deriving DecidableEq

/-- The per-vif struct morse_twt: station list, wake-interval lists (each
bucket is the agreement list of one wake interval, in list order), the
response tx queue, the pending event queue, and the action frames sent so
far (the externally visible transmissions). -/
structure MorseTwt where
  stas : List MorseTwtSta
  wake_intervals : List (List AgrRef)
  tx : List MorseTwtEvent
  events : List MorseTwtEvent
  sent_frames : List MorseTwtEvent
deriving DecidableEq

/-- morse_twt_get_sta: first station with the given address. -/
def morse_twt_get_sta (m : MorseTwt) (addr : Nat) : Option MorseTwtSta :=
  m.stas.find? (fun s => s.addr == addr)

/-- Dereference an agreement reference to the agreement it denotes. -/
def derefAgr (m : MorseTwt) (r : AgrRef) : Option MorseTwtAgreement :=
  (morse_twt_get_sta m r.1).bind (fun s => s.agreements[r.2]?)

/-- Replace the element at an index of a list (identity when out of range). -/
def listModify {α : Type} : List α → Nat → (α → α) → List α
  | [], _, _ => []
  | a :: t, 0, f => f a :: t
  | a :: t, n + 1, f => a :: listModify t n f

/-- Update every station carrying the given address (the station list never
holds two records for one address, so this is the in-place update of the C). -/
def updateSta (m : MorseTwt) (addr : Nat) (f : MorseTwtSta → MorseTwtSta) : MorseTwt :=
  { m with stas := m.stas.map (fun s => if s.addr == addr then f s else s) }

/-- Update one flow agreement of the station at the given address. -/
def updateAgr (m : MorseTwt) (addr flow : Nat) (f : MorseTwtAgreement → MorseTwtAgreement) :
    MorseTwt :=
  updateSta m addr (fun s => { s with agreements := listModify s.agreements flow f })

/-- Set the negotiation state of one flow agreement. -/
def setAgrState (m : MorseTwt) (addr flow : Nat) (st : MorseTwtState) : MorseTwt :=
  updateAgr m addr flow (fun a => { a with state := st })

/-- Set the wake time of one flow agreement (agr->data.wake_time_us = wt). -/
def setAgrWakeTime (m : MorseTwt) (r : AgrRef) (wt : Nat) : MorseTwt :=
  updateAgr m r.1 r.2 (fun a => { a with data := { a.data with wake_time_us := wt } })

/-- morse_twt_set_command on the abstracted data: store the setup command
into the request-type field. -/
def morse_twt_set_command_data (d : MorseTwtAgreementData) (cmd : TwtSetupCmd) :
    MorseTwtAgreementData :=
  { d with cmd := cmd }

/-! ### Wake-interval scheduler (src/twt.c lines 844-1000) -/

/-- u64 modulus: the scheduler arithmetic is unsigned 64-bit in C. -/
def U64_MOD : Nat := 2 ^ 64

/-- Wrapping u64 addition. -/
def u64add (a b : Nat) : Nat := (a + b) % U64_MOD

/-- Wrapping u64 subtraction (operands already reduced below 2^64). -/
def u64sub (a b : Nat) : Nat := (U64_MOD + a - b) % U64_MOD

/-- The iteration of morse_twt_agreement_wake_interval_get over the existing
wake-interval lists: find the bucket whose first agreement has exactly the
target interval; otherwise create an empty bucket before the first bucket
with a larger interval, or append one after the last.  Returns the updated
bucket list together with the index of the bucket found or created.  A
bucket with no first agreement, or a dangling reference, yields none (the C
returns NULL or would fault). -/
def wiGetLoop (m : MorseTwt) (target : Nat) : List (List AgrRef) →
    Option (List (List AgrRef) × Nat)
  | [] => none
  | b :: bs =>
    match b with
    | [] => none
    | r :: _ =>
      match derefAgr m r with
      | none => none
      | some agr =>
        let wi_us := agr.data.wake_interval_us
        if wi_us = target then some (b :: bs, 0)
        else if target < wi_us then some ([] :: b :: bs, 0)
        else if bs.isEmpty then some ([b, []], 1)
        else
          match wiGetLoop m target bs with
          | none => none
          | some (bs', i) => some (b :: bs', i + 1)

/-- morse_twt_agreement_wake_interval_get: an empty wake-interval list gets a
fresh bucket; otherwise search per wiGetLoop. -/
def morse_twt_agreement_wake_interval_get (m : MorseTwt) (target : Nat) :
    Option (List (List AgrRef) × Nat) :=
  if m.wake_intervals.isEmpty then some ([[]], 0)
  else wiGetLoop m target m.wake_intervals

/-- The gap-fitting walk of morse_twt_agreement_wake_interval_add over a
non-empty bucket.  At the last entry the new agreement is appended,
anchored at the end of that service period; otherwise if the (wrapped) gap
between the current and next service periods holds the new duration, the
agreement is inserted there.  Returns the assigned wake time and the new
bucket contents; an exhausted walk yields none (the C then returns
-EBADSLT).  A zero wake interval would be a division by zero in C
(div64_u64_rem); Nat gives the dividend back, which never arises in the
claims below. -/
def wiWalkInsert (m : MorseTwt) (ref : AgrRef) (dur : Nat) : List AgrRef →
    Option (Nat × List AgrRef)
  | [] => none
  | [p] =>
    match derefAgr m p with
    | none => none
    | some pd => some (u64add pd.data.wake_time_us pd.data.wake_duration_us, [p, ref])
  | p :: pn :: rest =>
    match derefAgr m p, derefAgr m pn with
    | some pd, some pnd =>
      let cur_off := pd.data.wake_time_us % pd.data.wake_interval_us
      let next_off0 := pnd.data.wake_time_us % pnd.data.wake_interval_us
      let next_off :=
        if next_off0 < cur_off then u64add next_off0 pd.data.wake_interval_us else next_off0
      let unalloc := u64sub next_off (u64add cur_off pd.data.wake_duration_us)
      if dur ≤ unalloc then
        some (u64add pd.data.wake_time_us pd.data.wake_duration_us, p :: ref :: pn :: rest)
      else
        match wiWalkInsert m ref dur (pn :: rest) with
        | none => none
        | some (wt, l) => some (wt, p :: l)
    | _, _ => none

/-- morse_twt_agreement_wake_interval_add.  Rejects agreements in state
NO_AGREEMENT or AGREEMENT; finds or creates the bucket for the agreement
wake interval; an empty bucket anchors the agreement at wake time 0;
accepted Demand agreements are appended to the tail unconditionally;
otherwise the gap-fitting walk places the agreement, and only an exhausted
walk returns -EBADSLT. -/
def morse_twt_agreement_wake_interval_add (m : MorseTwt) (ref : AgrRef) : Int × MorseTwt :=
  match derefAgr m ref with
  | none => (-EINVAL, m)
  | some agr =>
    if agr.state = .NO_AGREEMENT ∨ agr.state = .AGREEMENT then (-EINVAL, m)
    else
      match morse_twt_agreement_wake_interval_get m agr.data.wake_interval_us with
      | none => (-EINVAL, m)
      | some (bs, i) =>
        let bucket := bs.getD i []
        if bucket = [] then
          let m' := setAgrWakeTime m ref 0
          (0, { m' with wake_intervals := listModify bs i (fun _ => [ref]) })
        else if agr.data.cmd = .DEMAND then
          (0, { m with wake_intervals := listModify bs i (fun b => b ++ [ref]) })
        else
          match wiWalkInsert m ref agr.data.wake_duration_us bucket with
          | some (wt, bucket') =>
            let m' := setAgrWakeTime m ref wt
            (0, { m' with wake_intervals := listModify bs i (fun _ => bucket') })
          | none => (-EBADSLT, m)

/-! ### Agreement and station removal (src/twt.c lines 670-816) -/

/-- Remove the first occurrence of a reference from a list. -/
def listEraseRef (ref : AgrRef) : List AgrRef → List AgrRef
  | [] => []
  | r :: t => if r = ref then t else r :: listEraseRef ref t

/-- morse_twt_agreement_remove on the bucket list: delete the agreement from
the bucket containing it, and delete that bucket when the removal leaves it
empty; an agreement in no bucket is skipped. -/
def agreement_remove_buckets (ref : AgrRef) : List (List AgrRef) → List (List AgrRef)
  | [] => []
  | b :: bs =>
    if ref ∈ b then
      let b' := listEraseRef ref b
      if b' = [] then bs else b' :: bs
    else b :: agreement_remove_buckets ref bs

/-- morse_twt_agreement_remove lifted to the model state. -/
def morse_twt_agreement_remove (m : MorseTwt) (ref : AgrRef) : MorseTwt :=
  { m with wake_intervals := agreement_remove_buckets ref m.wake_intervals }

/-- morse_twt_sta_remove: remove every flow agreement of the station from the
wake-interval lists, purge the response tx queue for its address, and
delete the station record.  (The station-interface install-queue purge
applies to station vifs only; the responder model omits it.) -/
def morse_twt_sta_remove (m : MorseTwt) (addr : Nat) : Int × MorseTwt :=
  match morse_twt_get_sta m addr with
  | none => (-ENODEV, m)
  | some _ =>
    let m1 := (List.range MORSE_TWT_AGREEMENTS_MAX_PER_STA).foldl
      (fun acc i => morse_twt_agreement_remove acc (addr, i)) m
    (0, { m1 with tx := m1.tx.filter (fun e => e.addr ≠ addr),
                  stas := m1.stas.eraseP (fun s => s.addr == addr) })

/-- morse_twt_sta_agreement_remove: remove the flow agreement from its
wake-interval bucket, then remove the station itself when every flow
agreement is in state NO_AGREEMENT. -/
def morse_twt_sta_agreement_remove (m : MorseTwt) (addr flow_id : Nat) : Int × MorseTwt :=
  match morse_twt_get_sta m addr with
  | none => (-EINVAL, m)
  | some sta =>
    if MORSE_TWT_AGREEMENTS_MAX_PER_STA ≤ flow_id then (-EINVAL, m)
    else
      let m1 := morse_twt_agreement_remove m (addr, flow_id)
      if (List.range MORSE_TWT_AGREEMENTS_MAX_PER_STA).all
          (fun i => (sta.agreements.getD i default).state == MorseTwtState.NO_AGREEMENT) then
        morse_twt_sta_remove m1 addr
      else (0, m1)

/-- morse_twt_sta_agreement_add: copy the event agreement data into the
station agreement slot. -/
def morse_twt_sta_agreement_add (m : MorseTwt) (addr flow_id : Nat)
    (agr_data : MorseTwtAgreementData) : Int × MorseTwt :=
  match morse_twt_get_sta m addr with
  | none => (-EINVAL, m)
  | some _ =>
    if MORSE_TWT_AGREEMENTS_MAX_PER_STA ≤ flow_id then (-EINVAL, m)
    else (0, updateAgr m addr flow_id (fun a => { a with data := agr_data }))

/-! ### State machine (src/twt.c lines 459-495, 1017-1238) -/

/-- morse_twt_enter_state for the two terminal states: set the flow state
and run the matching handler (agreement removal for NO_AGREEMENT, data copy
for AGREEMENT).  morse_twt_enter_state always returns 0 once its argument
checks pass; the handler return value is discarded.  This helper is what
the responses (send accept/reject, dequeue) re-enter the machine with. -/
def morse_twt_enter_state_terminal (m : MorseTwt) (addr : Nat) (event : MorseTwtEvent)
    (state : MorseTwtState) : Int × MorseTwt :=
  match morse_twt_get_sta m addr with
  | none => (-EINVAL, m)
  | some _ =>
    let m1 := setAgrState m addr event.flow_id state
    match state with
    | .NO_AGREEMENT => (0, (morse_twt_sta_agreement_remove m1 addr event.flow_id).2)
    | .AGREEMENT =>
      match event.body with
      | .setup _ d => (0, (morse_twt_sta_agreement_add m1 addr event.flow_id d).2)
      | .teardown => (0, m1)
    | _ => (0, m1)

/-- morse_twt_send_accept: copy the event data into the station agreement,
place it into its wake-interval bucket (the placement return value is
discarded by the C code), rewrite the setup command to Accept, copy the
adjusted parameters back into the event, and either respond immediately
with an action frame and enter AGREEMENT (dialog pending), or queue the
accept on the response tx queue. -/
def morse_twt_send_accept (m : MorseTwt) (addr : Nat) (event : MorseTwtEvent) :
    Int × MorseTwt :=
  match event.body with
  | .teardown => (-EINVAL, m)
  | .setup _ event_data =>
    match morse_twt_get_sta m addr with
    | none => (-EINVAL, m)
    | some sta =>
      let m1 := updateAgr m addr event.flow_id (fun a => { a with data := event_data })
      let m2 := (morse_twt_agreement_wake_interval_add m1 (addr, event.flow_id)).2
      let m3 := updateAgr m2 addr event.flow_id
        (fun a => { a with data := morse_twt_set_command_data a.data .ACCEPT })
      let new_data := ((derefAgr m3 (addr, event.flow_id)).map
        (fun a => a.data)).getD (morse_twt_set_command_data event_data .ACCEPT)
      let event' : MorseTwtEvent := { event with body := .setup .ACCEPT new_data }
      if sta.action_is_pending then
        let m4 := { m3 with sent_frames := m3.sent_frames ++ [event'] }
        let m5 := updateSta m4 addr (fun s => { s with action_is_pending := false })
        (0, (morse_twt_enter_state_terminal m5 addr event' .AGREEMENT).2)
      else
        (0, { m3 with tx := m3.tx ++ [event'] })

/-- morse_twt_send_reject: rewrite the setup command to Reject and either
respond immediately with an action frame and enter NO_AGREEMENT (dialog
pending), or queue the reject on the response tx queue. -/
def morse_twt_send_reject (m : MorseTwt) (addr : Nat) (event : MorseTwtEvent) :
    Int × MorseTwt :=
  match morse_twt_get_sta m addr with
  | none => (-EINVAL, m)
  | some sta =>
    match event.body with
    | .teardown => (-EINVAL, m)
    | .setup _ d =>
      let event' : MorseTwtEvent :=
        { event with body := .setup .REJECT (morse_twt_set_command_data d .REJECT) }
      if sta.action_is_pending then
        let m1 := { m with sent_frames := m.sent_frames ++ [event'] }
        let m2 := updateSta m1 addr (fun s => { s with action_is_pending := false })
        (0, (morse_twt_enter_state_terminal m2 addr event' .NO_AGREEMENT).2)
      else
        (0, { m with tx := m.tx ++ [event'] })

/-- morse_twt_enter_state: set the flow state and dispatch to the state
handler; the consider states decide immediately (accept for
Request/Suggest, reject for Demand/Grouping) and the function returns 0. -/
def morse_twt_enter_state (m : MorseTwt) (addr : Nat) (event : MorseTwtEvent)
    (state : MorseTwtState) : Int × MorseTwt :=
  match morse_twt_get_sta m addr with
  | none => (-EINVAL, m)
  | some _ =>
    match state with
    | .CONSIDER_REQUEST =>
      (0, (morse_twt_send_accept (setAgrState m addr event.flow_id state) addr event).2)
    | .CONSIDER_SUGGEST =>
      (0, (morse_twt_send_accept (setAgrState m addr event.flow_id state) addr event).2)
    | .CONSIDER_DEMAND =>
      (0, (morse_twt_send_reject (setAgrState m addr event.flow_id state) addr event).2)
    | .CONSIDER_GROUPING =>
      (0, (morse_twt_send_reject (setAgrState m addr event.flow_id state) addr event).2)
    | _ => morse_twt_enter_state_terminal m addr event state

/-- morse_twt_handle_event_in_no_agreement: a Request enters
CONSIDER_REQUEST, a Suggest CONSIDER_SUGGEST, and both Demand and Grouping
enter CONSIDER_DEMAND (as the C does); response commands and teardowns are
errors and the event is purged. -/
def morse_twt_handle_event_in_no_agreement (m : MorseTwt) (event : MorseTwtEvent) :
    Int × MorseTwt :=
  match morse_twt_get_sta m event.addr with
  | none => (-EINVAL, m)
  | some _ =>
    match event.body with
    | .teardown => (-EINVAL, m)
    | .setup cmd _ =>
      match cmd with
      | .REQUEST => (0, (morse_twt_enter_state m event.addr event .CONSIDER_REQUEST).2)
      | .SUGGEST => (0, (morse_twt_enter_state m event.addr event .CONSIDER_SUGGEST).2)
      | .DEMAND => (0, (morse_twt_enter_state m event.addr event .CONSIDER_DEMAND).2)
      | .GROUPING => (0, (morse_twt_enter_state m event.addr event .CONSIDER_DEMAND).2)
      | _ => (-EINVAL, m)

/-- morse_twt_dequeue_tx_response: delivering a queued response to a flow in
a consider state enters AGREEMENT on Accept and NO_AGREEMENT on Reject;
other states are invalid for dequeuing. -/
def morse_twt_dequeue_tx_response (m : MorseTwt) (tx : MorseTwtEvent) : Int × MorseTwt :=
  match morse_twt_get_sta m tx.addr with
  | none => (-ENODEV, m)
  | some sta =>
    match (sta.agreements.getD tx.flow_id default).state with
    | .CONSIDER_REQUEST | .CONSIDER_SUGGEST | .CONSIDER_DEMAND | .CONSIDER_GROUPING =>
      match tx.body with
      | .setup cmd _ =>
        if cmd = .ACCEPT then morse_twt_enter_state m tx.addr tx .AGREEMENT
        else if cmd = .REJECT then morse_twt_enter_state m tx.addr tx .NO_AGREEMENT
        else (0, m)
      | .teardown => (0, m)
    | .NO_AGREEMENT | .AGREEMENT => (-EINVAL, m)

/-- The effective negotiation state of a flow: the state recorded in the
station record, or NO_AGREEMENT when no record exists (records are created
zero-initialised on demand and destroyed when all flows reach
NO_AGREEMENT). -/
def morse_twt_flow_state (m : MorseTwt) (addr flow : Nat) : MorseTwtState :=
  match morse_twt_get_sta m addr with
  | none => .NO_AGREEMENT
  | some s => (s.agreements.getD flow default).state

/-! ### Event queue (src/twt.c lines 142-163 and 1374-1385) -/

/-- The removal condition of morse_twt_queue_purge: an event is removed when
it matches every filter that was supplied. -/
def purgeMatch (addr : Option Nat) (flow_id : Option Nat) (e : MorseTwtEvent) : Bool :=
  (match addr with
   | some a => e.addr == a
   | none => true) &&
  (match flow_id with
   | some f => e.flow_id == f
   | none => true)

/-- morse_twt_queue_purge: with no filter at all the queue is left alone;
otherwise every matching event is unlinked and freed. -/
def morse_twt_queue_purge (q : List MorseTwtEvent) (addr : Option Nat)
    (flow_id : Option Nat) : List MorseTwtEvent :=
  if addr = none ∧ flow_id = none then q
  else q.filter (fun e => !purgeMatch addr flow_id e)

/-- morse_twt_queue_event: purge stale events with the same address and flow
id, then append the new event. -/
def morse_twt_queue_event (q : List MorseTwtEvent) (event : MorseTwtEvent) :
    List MorseTwtEvent :=
  morse_twt_queue_purge q (some event.addr) (some event.flow_id) ++ [event]

/-- Number of queued events for one (address, flow id) pair. -/
def countPair (q : List MorseTwtEvent) (a f : Nat) : Nat :=
  q.countP (fun e => e.addr == a && e.flow_id == f)

/-- Number of occurrences of a reference across all wake-interval buckets. -/
def bucketRefCount (r : AgrRef) (bs : List (List AgrRef)) : Nat :=
  (bs.map (fun b => b.countP (fun x => x == r))).sum

/-! ### Concrete instances used by counterexamples and witnesses -/

/-- A pending command expecting a 16-byte response into a supplied buffer. -/
def c8_pending : PendingCmd :=
  { message_id := 5, host_id := 256, length := 16, dest := some (List.replicate 16 0), ret := 0 }

/-- Bookkeeping with c8_pending outstanding and a waiter installed. -/
def c8_state : CmdRespState := { pending := some c8_pending, waiterPresent := true }

/-- A matching confirmation declaring a 4-byte payload (12 bytes with the
header) in a 16-byte message. -/
def c8_src : MorseRespMsg :=
  { message_id := 5, host_id := 256, len := 4, status := 7,
    bytes := [1, 2, 3, 4, 5, 6, 7, 8, 9, 10, 11, 12, 13, 14, 15, 16], isCfm := true }

/-- An agreement occupying time 0..5000 of the 10000us interval. -/
def c4_agrA : MorseTwtAgreement :=
  { state := .AGREEMENT,
    data := { wake_time_us := 0, wake_interval_us := 10000, wake_duration_us := 5000,
              cmd := .REQUEST } }

/-- An agreement occupying time 5000..10000 of the 10000us interval. -/
def c4_agrB : MorseTwtAgreement :=
  { state := .AGREEMENT,
    data := { wake_time_us := 5000, wake_interval_us := 10000, wake_duration_us := 5000,
              cmd := .REQUEST } }

/-- A new request of duration 8000us, larger than any remaining gap of the
10000us interval. -/
def c4_agrNew : MorseTwtAgreement :=
  { state := .CONSIDER_REQUEST,
    data := { wake_time_us := 0, wake_interval_us := 10000, wake_duration_us := 8000,
              cmd := .REQUEST } }

/-- Station 1 with flows 0 and 1 scheduled and flow 2 under consideration. -/
def c4_sta : MorseTwtSta :=
  { addr := 1, dialog_token := 0, action_is_pending := false,
    agreements := [c4_agrA, c4_agrB, c4_agrNew, default, default, default, default, default] }

/-- Model state whose single 10000us bucket is completely full. -/
def c4_model : MorseTwt :=
  { stas := [c4_sta], wake_intervals := [[(1, 0), (1, 1)]], tx := [], events := [],
    sent_frames := [] }

/-- A default station for witnesses: every flow in NO_AGREEMENT. -/
def w_sta : MorseTwtSta :=
  { addr := 7, dialog_token := 0, action_is_pending := false,
    agreements := List.replicate 8 default }

/-- Witness station with flow 1 in AGREEMENT, scheduled in a singleton bucket. -/
def w9_sta : MorseTwtSta :=
  { addr := 3, dialog_token := 0, action_is_pending := false,
    agreements := (List.replicate 8 (default : MorseTwtAgreement)).set 1
      { state := .AGREEMENT, data := default } }

/-- Witness model for station removal: flow 1 of w9_sta sits alone in its
wake-interval bucket. -/
def w9_model : MorseTwt :=
  { stas := [w9_sta], wake_intervals := [[(3, 1)]], tx := [], events := [], sent_frames := [] }

/-- A placed agreement at offset 0 with duration 5000 of a 10000us interval. -/
def c5_agr1 : MorseTwtAgreement :=
  { state := .AGREEMENT,
    data := { wake_time_us := 0, wake_interval_us := 10000, wake_duration_us := 5000,
              cmd := .REQUEST } }

/-- A new request under consideration for the same 10000us interval. -/
def c5_agrNew : MorseTwtAgreement :=
  { state := .CONSIDER_REQUEST,
    data := { wake_time_us := 0, wake_interval_us := 10000, wake_duration_us := 3000,
              cmd := .REQUEST } }

/-- Station 2 holding c5_agr1 on flow 0 and c5_agrNew on flow 1. -/
def c5_sta : MorseTwtSta :=
  { addr := 2, dialog_token := 0, action_is_pending := false,
    agreements := [c5_agr1, c5_agrNew, default, default, default, default, default, default] }

/-- Model with no bucket yet for the 10000us interval. -/
def c5_model_empty : MorseTwt :=
  { stas := [c5_sta], wake_intervals := [], tx := [], events := [], sent_frames := [] }

/-- Model whose 10000us bucket holds exactly the flow-0 agreement. -/
def c5_model_one : MorseTwt :=
  { stas := [c5_sta], wake_intervals := [[(2, 0)]], tx := [], events := [], sent_frames := [] }

/-! ## Supporting lemmas -/

theorem countP_filter_not_self {α : Type} (p : α → Bool) (l : List α) :
    (l.filter (fun x => !p x)).countP p = 0 := by
  rw [List.countP_eq_zero]
  intro a ha
  have h := List.mem_filter.mp ha
  simpa using h.2

theorem morse_cmd_seq_next_lt (n : Nat) : morse_cmd_seq_next n < 256 := by
  unfold morse_cmd_seq_next MORSE_CMD_HOST_ID_SEQ_MAX
  dsimp only
  split <;> omega

set_option maxRecDepth 8192 in
theorem hostid_mask : ∀ s < 256, ∀ i < 2,
    (s <<< 8 ||| i) &&& 0xFF00 = s <<< 8 ∧ (s <<< 8 ||| i) &&& 0xFF = i := by decide

theorem twt_fields_loop_spec :
    ∀ m : Nat, (∃ m0 k, m0 ≤ 65535 ∧ m = m0 * 2 ^ k) → ∀ e : Nat,
      (twt_calculate_wake_interval_fields_loop m e).1 *
        2 ^ (twt_calculate_wake_interval_fields_loop m e).2 = m * 2 ^ e := by
  intro m
  induction m using Nat.strong_induction_on with
  | _ m ih =>
    intro hrep e
    rw [twt_calculate_wake_interval_fields_loop]
    split
    case isTrue h =>
      obtain ⟨m0, k, hm0, rfl⟩ := hrep
      have hk : k ≠ 0 := by
        rintro rfl
        simp only [pow_zero, mul_one] at h
        omega
      obtain ⟨k', rfl⟩ : ∃ k', k = k' + 1 := ⟨k - 1, by omega⟩
      have hsplit : m0 * 2 ^ (k' + 1) = m0 * 2 ^ k' * 2 := by ring
      have heven : m0 * 2 ^ (k' + 1) / 2 = m0 * 2 ^ k' := by
        rw [hsplit]
        exact Nat.mul_div_cancel _ (by norm_num)
      have hlt : m0 * 2 ^ (k' + 1) / 2 < m0 * 2 ^ (k' + 1) := by
        have : 0 < m0 * 2 ^ (k' + 1) := by omega
        exact Nat.div_lt_self this (by norm_num)
      rw [heven]
      rw [ih _ (heven ▸ hlt) ⟨m0, k', hm0, rfl⟩ (e + 1)]
      rw [hsplit]
      ring
    case isFalse h => rfl

/-! ## Claim theorems -/

/-- Claim C7: for every interval representable as mantissa * 2^exponent with
mantissa at most 65535 and the product a u64, encoding the interval with
twt_calculate_wake_interval_fields and decoding the computed mantissa and
exponent with twt_calculate_wake_interval yields the original interval. -/
theorem twt_wake_interval_roundtrip (mantissa exponent : Nat)
    (hm : mantissa ≤ 65535) (hu64 : mantissa * 2 ^ exponent < 2 ^ 64) :
    twt_calculate_wake_interval
      (twt_calculate_wake_interval_fields (mantissa * 2 ^ exponent)).2.1
      (twt_calculate_wake_interval_fields (mantissa * 2 ^ exponent)).2.2
      = mantissa * 2 ^ exponent := by
  have h := twt_fields_loop_spec (mantissa * 2 ^ exponent)
    ⟨mantissa, exponent, hm, rfl⟩ 0
  simpa [twt_calculate_wake_interval_fields, twt_calculate_wake_interval] using h

theorem twt_wake_interval_roundtrip_witness :
    3 ≤ 65535 ∧
    twt_calculate_wake_interval
      (twt_calculate_wake_interval_fields (3 * 2 ^ 16)).2.1
      (twt_calculate_wake_interval_fields (3 * 2 ^ 16)).2.2 = 3 * 2 ^ 16 :=
  ⟨by norm_num, twt_wake_interval_roundtrip 3 16 (by norm_num) (by norm_num)⟩

/-- Claim C10: enqueuing an event purges every pending event with the same
peer address and flow id before appending it, so the queue holds exactly one
event for that pair afterwards, holding at most one event per pair is an
invariant of enqueuing, and a purged (not yet processed) event is silently
dropped from the queue. -/
theorem morse_twt_queue_event_dedup (q : List MorseTwtEvent) (e : MorseTwtEvent) :
    countPair (morse_twt_queue_event q e) e.addr e.flow_id = 1 ∧
    (∀ e' ∈ q, purgeMatch (some e.addr) (some e.flow_id) e' = true →
      e' ∉ morse_twt_queue_purge q (some e.addr) (some e.flow_id)) ∧
    (∀ a f, countPair q a f ≤ 1 → countPair (morse_twt_queue_event q e) a f ≤ 1) := by
  have hq : morse_twt_queue_purge q (some e.addr) (some e.flow_id)
      = q.filter (fun e' => !(e'.addr == e.addr && e'.flow_id == e.flow_id)) := by
    unfold morse_twt_queue_purge
    rw [if_neg (by simp)]
    rfl
  have h0 : (q.filter
      (fun e' => !(e'.addr == e.addr && e'.flow_id == e.flow_id))).countP
        (fun e' : MorseTwtEvent => e'.addr == e.addr && e'.flow_id == e.flow_id) = 0 :=
    countP_filter_not_self _ q
  refine ⟨?_, ?_, ?_⟩
  · unfold morse_twt_queue_event countPair
    rw [hq, List.countP_append, h0]
    simp [List.countP_cons]
  · intro e' he' hmatch
    rw [hq]
    intro hmem
    have h := (List.mem_filter.mp hmem).2
    simp only [purgeMatch] at hmatch
    simp [hmatch] at h
  · intro a f hle
    unfold morse_twt_queue_event countPair
    unfold countPair at hle
    rw [hq, List.countP_append]
    by_cases hp : (e.addr == a && e.flow_id == f) = true
    · have he : e.addr = a ∧ e.flow_id = f := by simpa using hp
      obtain ⟨ha, hf⟩ := he
      subst ha hf
      rw [h0]
      simp [List.countP_cons]
    · have h1 : ([e].countP (fun e' : MorseTwtEvent => e'.addr == a && e'.flow_id == f)) = 0 := by
        simp [List.countP_cons, hp]
      rw [h1]
      have hsub : (q.filter
          (fun e' => !(e'.addr == e.addr && e'.flow_id == e.flow_id))).countP
            (fun e' : MorseTwtEvent => e'.addr == a && e'.flow_id == f)
          ≤ q.countP (fun e' : MorseTwtEvent => e'.addr == a && e'.flow_id == f) :=
        (List.filter_sublist q).countP_le _
      omega

theorem morse_twt_queue_event_dedup_witness :
    countPair [] 1 2 ≤ 1 ∧
    countPair
      (morse_twt_queue_event [] { addr := 1, flow_id := 2, body := .teardown }) 1 2 = 1 :=
  ⟨by decide,
    (morse_twt_queue_event_dedup [] { addr := 1, flow_id := 2, body := .teardown }).1⟩

/-- Claim C2: an inbound confirmation is treated as matching the pending
command iff a pending command exists, the message ids are equal, and the
sequence portions of the host ids are equal; a mismatch in the retry portion
alone is still a match. -/
theorem morse_cmd_resp_process_matching (st : CmdRespState) (src : MorseRespMsg)
    (hc : src.isCfm = true) :
    ((morse_cmd_resp_process st src).matched = true ↔
      ∃ p, st.pending = some p ∧ p.message_id = src.message_id ∧
        p.host_id &&& MORSE_CMD_HOST_ID_SEQ_MASK
          = src.host_id &&& MORSE_CMD_HOST_ID_SEQ_MASK) ∧
    (∀ p, st.pending = some p → p.message_id = src.message_id →
      p.host_id &&& MORSE_CMD_HOST_ID_SEQ_MASK = src.host_id &&& MORSE_CMD_HOST_ID_SEQ_MASK →
      p.host_id &&& MORSE_CMD_HOST_ID_RETRY_MASK
          ≠ src.host_id &&& MORSE_CMD_HOST_ID_RETRY_MASK →
      (morse_cmd_resp_process st src).matched = true) := by
  cases hp : st.pending with
  | none =>
    constructor
    · simp [morse_cmd_resp_process, hc, hp]
    · intro p hp'
      exact absurd hp' (by simp)
  | some p =>
    have hmain : (morse_cmd_resp_process st src).matched = true ↔
        (p.message_id = src.message_id ∧
          p.host_id &&& MORSE_CMD_HOST_ID_SEQ_MASK
            = src.host_id &&& MORSE_CMD_HOST_ID_SEQ_MASK) := by
      unfold morse_cmd_resp_process
      rw [hc]
      simp only [Bool.not_true, Bool.false_eq_true, if_false, hp]
      by_cases hcond : p.message_id ≠ src.message_id ∨
          p.host_id &&& MORSE_CMD_HOST_ID_SEQ_MASK
            ≠ src.host_id &&& MORSE_CMD_HOST_ID_SEQ_MASK
      · rw [if_pos hcond]
        simp only [show (false = true) ↔ False by simp, false_iff]
        tauto
      · rw [if_neg hcond]
        push_neg at hcond
        split <;> simp [hcond.1, hcond.2]
    constructor
    · rw [hmain]
      constructor
      · rintro ⟨h1, h2⟩
        exact ⟨p, rfl, h1, h2⟩
      · rintro ⟨p', hp', h1, h2⟩
        cases hp'
        exact ⟨h1, h2⟩
    · intro p' hp' h1 h2 _
      cases hp'
      rw [hmain]
      exact ⟨h1, h2⟩

theorem morse_cmd_resp_process_matching_witness :
    (morse_cmd_resp_process
      { pending := some { message_id := 5, host_id := 256, length := 0, dest := none, ret := 0 },
        waiterPresent := true }
      { message_id := 5, host_id := 257, len := 0, status := 0, bytes := [], isCfm := true
        }).matched = true :=
  (morse_cmd_resp_process_matching
    { pending := some { message_id := 5, host_id := 256, length := 0, dest := none, ret := 0 },
      waiterPresent := true }
    { message_id := 5, host_id := 257, len := 0, status := 0, bytes := [], isCfm := true }
    rfl).2
    { message_id := 5, host_id := 256, length := 0, dest := none, ret := 0 }
    rfl rfl (by decide) (by decide)

/-- Claim C3: an inbound confirmation that does not match the pending command
(no pending command, message-id mismatch, or sequence-bits mismatch) never
signals the waiter completion, leaves the pending-command bookkeeping (and so
the caller destination buffer) unchanged, copies nothing, and the inbound
buffer is freed. -/
theorem morse_cmd_resp_process_unmatched_no_effect (st : CmdRespState) (src : MorseRespMsg)
    (hc : src.isCfm = true)
    (hun : ¬ ∃ p, st.pending = some p ∧ p.message_id = src.message_id ∧
      p.host_id &&& MORSE_CMD_HOST_ID_SEQ_MASK
        = src.host_id &&& MORSE_CMD_HOST_ID_SEQ_MASK) :
    (morse_cmd_resp_process st src).signaled = false ∧
    (morse_cmd_resp_process st src).st = st ∧
    (morse_cmd_resp_process st src).copiedLen = 0 ∧
    (morse_cmd_resp_process st src).freedInbound = true := by
  cases hp : st.pending with
  | none => simp [morse_cmd_resp_process, hc, hp]
  | some p =>
    have hcond : p.message_id ≠ src.message_id ∨
        p.host_id &&& MORSE_CMD_HOST_ID_SEQ_MASK
          ≠ src.host_id &&& MORSE_CMD_HOST_ID_SEQ_MASK := by
      by_contra h
      push_neg at h
      exact hun ⟨p, hp, h.1, h.2⟩
    unfold morse_cmd_resp_process
    rw [hc]
    simp only [Bool.not_true, Bool.false_eq_true, if_false, hp]
    rw [if_pos hcond]
    exact ⟨rfl, rfl, rfl, rfl⟩

theorem morse_cmd_resp_process_unmatched_no_effect_witness :
    (morse_cmd_resp_process { pending := none, waiterPresent := true }
      { message_id := 5, host_id := 256, len := 0, status := 0, bytes := [],
        isCfm := true }).signaled = false :=
  (morse_cmd_resp_process_unmatched_no_effect
    { pending := none, waiterPresent := true }
    { message_id := 5, host_id := 256, len := 0, status := 0, bytes := [], isCfm := true }
    rfl (by rintro ⟨p, hp, -⟩; exact absurd hp (by simp))).1

/-- Claim C8 counterexample: a matched confirmation with expected length 16
and declared length 4 copies 12 bytes, namely min(expected, declared plus
header size), not min(declared, expected) = 4 as the claim states. -/
theorem morse_cmd_resp_process_copy_len_cex :
    (morse_cmd_resp_process c8_state c8_src).matched = true ∧
    (morse_cmd_resp_process c8_state c8_src).copiedLen = 12 ∧
    ¬ (morse_cmd_resp_process c8_state c8_src).copiedLen = min c8_src.len c8_pending.length := by
  decide

/-- Claim C8 (amended): a matched confirmation with a destination buffer and
expected length at least a response header plus status copies exactly
min(declared length + header size, expected length) bytes into the
destination and records result 0 (the sender then reads the firmware status
out of the copied response); otherwise the raw status scalar is recorded and
nothing is copied. -/
theorem morse_cmd_resp_process_copy_semantics (st : CmdRespState) (src : MorseRespMsg)
    (p : PendingCmd) (hc : src.isCfm = true) (hp : st.pending = some p)
    (hmsg : p.message_id = src.message_id)
    (hseq : p.host_id &&& MORSE_CMD_HOST_ID_SEQ_MASK
      = src.host_id &&& MORSE_CMD_HOST_ID_SEQ_MASK) :
    (∀ d, p.dest = some d → MORSE_RESP_MIN_SIZE ≤ p.length →
      (morse_cmd_resp_process st src).copiedLen
          = min p.length (src.len + MORSE_CMD_HEADER_SIZE) ∧
      (morse_cmd_resp_process st src).st.pending
          = some
              { p with
                ret := 0,
                dest := some
                  (src.bytes.take (min p.length (src.len + MORSE_CMD_HEADER_SIZE))
                    ++ d.drop (min p.length (src.len + MORSE_CMD_HEADER_SIZE))) }) ∧
    ((p.dest = none ∨ p.length < MORSE_RESP_MIN_SIZE) →
      (morse_cmd_resp_process st src).copiedLen = 0 ∧
      (morse_cmd_resp_process st src).st.pending = some { p with ret := src.status }) := by
  have hred : morse_cmd_resp_process st src =
      (if MORSE_RESP_MIN_SIZE ≤ p.length ∧ p.dest.isSome = true then
        { st :=
            { st with
              pending := some
                { p with
                  ret := 0,
                  dest := some
                    (src.bytes.take (min p.length (src.len + MORSE_CMD_HEADER_SIZE))
                      ++ (p.dest.getD []).drop
                        (min p.length (src.len + MORSE_CMD_HEADER_SIZE))) } },
          signaled := st.waiterPresent, freedInbound := true, handedToEventPath := false,
          matched := true, copiedLen := min p.length (src.len + MORSE_CMD_HEADER_SIZE) }
      else
        { st := { st with pending := some { p with ret := src.status } },
          signaled := st.waiterPresent, freedInbound := true, handedToEventPath := false,
          matched := true, copiedLen := 0 }) := by
    unfold morse_cmd_resp_process
    rw [hc]
    simp only [Bool.not_true, Bool.false_eq_true, if_false, hp]
    rw [if_neg (by push_neg; exact ⟨hmsg, hseq⟩)]
  constructor
  · intro d hd hlen
    rw [hred, if_pos ⟨hlen, by rw [hd]; rfl⟩]
    rw [hd]
    exact ⟨rfl, rfl⟩
  · intro hor
    have hneg : ¬ (MORSE_RESP_MIN_SIZE ≤ p.length ∧ p.dest.isSome = true) := by
      rcases hor with h | h
      · rintro ⟨-, hs⟩
        rw [h] at hs
        exact absurd hs (by simp)
      · rintro ⟨hl, -⟩
        omega
    rw [hred, if_neg hneg]
    exact ⟨rfl, rfl⟩

theorem morse_cmd_resp_process_copy_semantics_witness :
    (morse_cmd_resp_process c8_state c8_src).copiedLen
      = min c8_pending.length (c8_src.len + MORSE_CMD_HEADER_SIZE) := by
  have h := (morse_cmd_resp_process_copy_semantics c8_state c8_src c8_pending rfl rfl rfl
    rfl).1 (List.replicate 16 0) rfl (by decide)
  exact h.1

/-- Claim C1: with a command queue present, morse_cmd_tx makes at most
MM_MAX_COMMAND_RETRY (2) attempts, every transmitted frame reuses the caller
message id, length and vif id and the same sequence bits while the retry
bits equal the attempt number, a retransmission happens only after a timeout
(firmware statuses are assumed distinct from the timeout code), and if every
attempt times out the call returns -ETIMEDOUT. -/
theorem morse_cmd_tx_retry_discipline (cmd_seq : Nat) (cmd : MorseCmdHeaderFields)
    (env : Nat → AttemptOutcome)
    (hres : ∀ i res, env i = .completed res → res ≠ -ETIMEDOUT) :
    (morse_cmd_tx true cmd_seq cmd env).2.1.length ≤ MM_MAX_COMMAND_RETRY ∧
    (∀ i, ∀ h : i < (morse_cmd_tx true cmd_seq cmd env).2.1.length,
      ((morse_cmd_tx true cmd_seq cmd env).2.1.get ⟨i, h⟩).message_id = cmd.message_id ∧
      ((morse_cmd_tx true cmd_seq cmd env).2.1.get ⟨i, h⟩).len = cmd.len ∧
      ((morse_cmd_tx true cmd_seq cmd env).2.1.get ⟨i, h⟩).vif_id = cmd.vif_id ∧
      ((morse_cmd_tx true cmd_seq cmd env).2.1.get ⟨i, h⟩).host_id
          &&& MORSE_CMD_HOST_ID_SEQ_MASK
        = morse_cmd_seq_next cmd_seq <<< MORSE_CMD_HOST_ID_SEQ_SHIFT ∧
      ((morse_cmd_tx true cmd_seq cmd env).2.1.get ⟨i, h⟩).host_id
          &&& MORSE_CMD_HOST_ID_RETRY_MASK = i) ∧
    (2 ≤ (morse_cmd_tx true cmd_seq cmd env).2.1.length → env 0 = .waitTimeout) ∧
    (env 0 = .waitTimeout → env 1 = .waitTimeout →
      (morse_cmd_tx true cmd_seq cmd env).1 = -ETIMEDOUT) := by
  have hseq := morse_cmd_seq_next_lt cmd_seq
  have hmask0 := hostid_mask (morse_cmd_seq_next cmd_seq) hseq 0 (by norm_num)
  have hmask1 := hostid_mask (morse_cmd_seq_next cmd_seq) hseq 1 (by norm_num)
  have htx : morse_cmd_tx true cmd_seq cmd env =
      (let r := morse_cmd_tx_loop env cmd
        (morse_cmd_seq_next cmd_seq <<< MORSE_CMD_HOST_ID_SEQ_SHIFT) 1 0
      (r.1, r.2, morse_cmd_seq_next cmd_seq)) := by
    unfold morse_cmd_tx
    norm_num [MM_MAX_COMMAND_RETRY]
  have hm0a : morse_cmd_seq_next cmd_seq <<< 8 &&& 65280
      = morse_cmd_seq_next cmd_seq <<< 8 := by simpa using hmask0.1
  have hm0b : morse_cmd_seq_next cmd_seq <<< 8 &&& 255 = 0 := by simpa using hmask0.2
  rw [htx]
  cases h0 : env 0 with
  | allocFail =>
    refine ⟨?_, ?_, ?_, ?_⟩
    · simp [morse_cmd_tx_loop, h0, MM_MAX_COMMAND_RETRY]
    · intro i h
      simp [morse_cmd_tx_loop, h0] at h
    · intro h2
      simp [morse_cmd_tx_loop, h0] at h2
    · intro ht0 _
      exact absurd ht0 (by simp)
  | txErr e =>
    refine ⟨?_, ?_, ?_, ?_⟩
    · simp [morse_cmd_tx_loop, h0, MM_MAX_COMMAND_RETRY]
    · intro i h
      simp [morse_cmd_tx_loop, h0] at h
    · intro h2
      simp [morse_cmd_tx_loop, h0] at h2
    · intro ht0 _
      exact absurd ht0 (by simp)
  | waitTimeout =>
    cases h1 : env 1 with
    | allocFail =>
      refine ⟨?_, ?_, ?_, ?_⟩
      · simp [morse_cmd_tx_loop, h0, h1, MM_MAX_COMMAND_RETRY]
      · intro i h
        simp [morse_cmd_tx_loop, h0, h1] at h ⊢
        have hi : i = 0 := by omega
        subst hi
        simp [MORSE_CMD_HOST_ID_SEQ_MASK, MORSE_CMD_HOST_ID_RETRY_MASK,
          MORSE_CMD_HOST_ID_SEQ_SHIFT, hm0a, hm0b]
      · intro h2
        simp [morse_cmd_tx_loop, h0, h1] at h2
      · intro _ ht1
        exact absurd ht1 (by simp)
    | txErr e =>
      refine ⟨?_, ?_, ?_, ?_⟩
      · simp [morse_cmd_tx_loop, h0, h1, MM_MAX_COMMAND_RETRY]
      · intro i h
        simp [morse_cmd_tx_loop, h0, h1] at h ⊢
        have hi : i = 0 := by omega
        subst hi
        simp [MORSE_CMD_HOST_ID_SEQ_MASK, MORSE_CMD_HOST_ID_RETRY_MASK,
          MORSE_CMD_HOST_ID_SEQ_SHIFT, hm0a, hm0b]
      · intro h2
        simp [morse_cmd_tx_loop, h0, h1] at h2
      · intro _ ht1
        exact absurd ht1 (by simp)
    | waitTimeout =>
      refine ⟨?_, ?_, fun _ => rfl, ?_⟩
      · simp [morse_cmd_tx_loop, h0, h1, MM_MAX_COMMAND_RETRY]
      · intro i h
        simp [morse_cmd_tx_loop, h0, h1] at h ⊢
        interval_cases i <;>
          simp [MORSE_CMD_HOST_ID_SEQ_MASK, MORSE_CMD_HOST_ID_RETRY_MASK,
            MORSE_CMD_HOST_ID_SEQ_SHIFT, hm0a, hm0b, hmask1.1, hmask1.2]
      · intro _ _
        simp [morse_cmd_tx_loop, h0, h1]
    | completed res =>
      refine ⟨?_, ?_, fun _ => rfl, ?_⟩
      · simp [morse_cmd_tx_loop, h0, h1, MM_MAX_COMMAND_RETRY, hres 1 res h1]
      · intro i h
        simp [morse_cmd_tx_loop, h0, h1, hres 1 res h1] at h ⊢
        interval_cases i <;>
          simp [MORSE_CMD_HOST_ID_SEQ_MASK, MORSE_CMD_HOST_ID_RETRY_MASK,
            MORSE_CMD_HOST_ID_SEQ_SHIFT, hm0a, hm0b, hmask1.1, hmask1.2]
      · intro _ ht1
        exact absurd ht1 (by simp)
  | completed res =>
    refine ⟨?_, ?_, ?_, ?_⟩
    · simp [morse_cmd_tx_loop, h0, MM_MAX_COMMAND_RETRY, hres 0 res h0]
    · intro i h
      simp [morse_cmd_tx_loop, h0, hres 0 res h0] at h ⊢
      have hi : i = 0 := by omega
      subst hi
      simp [MORSE_CMD_HOST_ID_SEQ_MASK, MORSE_CMD_HOST_ID_RETRY_MASK,
        MORSE_CMD_HOST_ID_SEQ_SHIFT, hm0a, hm0b]
    · intro h2
      simp [morse_cmd_tx_loop, h0, hres 0 res h0] at h2
    · intro ht0 _
      exact absurd ht0 (by simp)

theorem morse_cmd_tx_retry_discipline_witness :
    (morse_cmd_tx true 0 { message_id := 5, len := 4, vif_id := 0 }
      (fun _ => AttemptOutcome.waitTimeout)).1 = -ETIMEDOUT :=
  (morse_cmd_tx_retry_discipline 0 { message_id := 5, len := 4, vif_id := 0 }
    (fun _ => AttemptOutcome.waitTimeout)
    (by intro i res hres; exact absurd hres (by simp))).2.2.2 rfl rfl

/-! ## TWT model supporting lemmas -/

theorem listModify_length {α : Type} (l : List α) (i : Nat) (f : α → α) :
    (listModify l i f).length = l.length := by
  induction l generalizing i with
  | nil => rfl
  | cons a t ih => cases i <;> simp [listModify, ih]

theorem listModify_ge {α : Type} (l : List α) (i : Nat) (f : α → α)
    (h : l.length ≤ i) : listModify l i f = l := by
  induction l generalizing i with
  | nil => rfl
  | cons a t ih =>
    cases i with
    | zero => simp at h
    | succ n => simp only [listModify]; rw [ih n (by simpa using h)]

theorem listModify_getElem?_self {α : Type} (l : List α) (i : Nat) (f : α → α) :
    (listModify l i f)[i]? = (l[i]?).map f := by
  induction l generalizing i with
  | nil => simp [listModify]
  | cons a t ih => cases i <;> simp [listModify, ih]

theorem listModify_getElem?_ne {α : Type} (l : List α) (i j : Nat) (f : α → α)
    (h : i ≠ j) : (listModify l i f)[j]? = l[j]? := by
  induction l generalizing i j with
  | nil => simp [listModify]
  | cons a t ih =>
    cases i with
    | zero => cases j with
      | zero => exact absurd rfl h
      | succ m => simp [listModify]
    | succ n => cases j with
      | zero => simp [listModify]
      | succ m => simpa [listModify] using ih n m (by omega)

theorem listModify_getD_self {α : Type} (l : List α) (i : Nat) (f : α → α) (d : α)
    (h : i < l.length) : (listModify l i f).getD i d = f (l.getD i d) := by
  rw [List.getD_eq_getElem?_getD, List.getD_eq_getElem?_getD, listModify_getElem?_self]
  rw [List.getElem?_eq_getElem h]
  rfl

theorem listModify_getD_ne {α : Type} (l : List α) (i j : Nat) (f : α → α) (d : α)
    (h : i ≠ j) : (listModify l i f).getD j d = l.getD j d := by
  rw [List.getD_eq_getElem?_getD, List.getD_eq_getElem?_getD, listModify_getElem?_ne _ _ _ _ h]

theorem morse_twt_get_sta_addr (m : MorseTwt) (a : Nat) (s : MorseTwtSta)
    (h : morse_twt_get_sta m a = some s) : s.addr = a := by
  unfold morse_twt_get_sta at h
  have := List.find?_some h
  simpa using this

theorem morse_twt_get_sta_updateSta (m : MorseTwt) (a a' : Nat) (f : MorseTwtSta → MorseTwtSta)
    (hf : ∀ x, (f x).addr = x.addr) :
    morse_twt_get_sta (updateSta m a f) a'
      = (morse_twt_get_sta m a').map (fun s => if s.addr == a then f s else s) := by
  unfold morse_twt_get_sta updateSta
  have hp : ((fun s : MorseTwtSta => s.addr == a') ∘
      fun s => if (s.addr == a) = true then f s else s)
      = (fun s : MorseTwtSta => s.addr == a') := by
    funext s
    by_cases h : (s.addr == a) = true <;> simp [Function.comp, h, hf]
  rw [List.find?_map, hp]

theorem get_sta_singleton (x : MorseTwtSta) (W : List (List AgrRef))
    (T E F : List MorseTwtEvent) (a : Nat) :
    morse_twt_get_sta ⟨[x], W, T, E, F⟩ a = if x.addr = a then some x else none := by
  by_cases h : x.addr = a
  · simp [morse_twt_get_sta, List.find?, h]
  · have hb : (x.addr == a) = false := by simp [h]
    simp [morse_twt_get_sta, List.find?, h, hb]

theorem derefAgr_updateAgr_self (m : MorseTwt) (addr flow : Nat)
    (g : MorseTwtAgreement → MorseTwtAgreement) (a : MorseTwtAgreement)
    (h : derefAgr m (addr, flow) = some a) :
    derefAgr (updateAgr m addr flow g) (addr, flow) = some (g a) := by
  unfold derefAgr at h ⊢
  cases hs : morse_twt_get_sta m addr with
  | none => rw [hs] at h; simp at h
  | some s =>
    rw [hs] at h
    simp only [Option.bind_eq_bind, Option.some_bind] at h
    have haddr := morse_twt_get_sta_addr m addr s hs
    unfold updateAgr
    rw [morse_twt_get_sta_updateSta m addr addr
      (fun s => { s with agreements := listModify s.agreements flow g }) (fun x => rfl), hs]
    simp [haddr, listModify_getElem?_self, h]

theorem derefAgr_updateAgr_ne (m : MorseTwt) (addr flow : Nat)
    (g : MorseTwtAgreement → MorseTwtAgreement) (r' : AgrRef) (h : r' ≠ (addr, flow)) :
    derefAgr (updateAgr m addr flow g) r' = derefAgr m r' := by
  obtain ⟨a', f'⟩ := r'
  unfold derefAgr updateAgr
  rw [morse_twt_get_sta_updateSta m addr a'
    (fun s => { s with agreements := listModify s.agreements flow g }) (fun x => rfl)]
  cases hs : morse_twt_get_sta m a' with
  | none => simp
  | some s =>
    have haddr := morse_twt_get_sta_addr m a' s hs
    by_cases hsa : (s.addr == addr) = true
    · have haa : a' = addr := by
        have h2 : s.addr = addr := by simpa using hsa
        omega
      subst haa
      have hff : flow ≠ f' := by
        intro hc
        exact h (by rw [hc])
      simp [haddr, listModify_getElem?_ne _ _ _ _ hff]
    · have hne : ¬ s.addr = addr := by simpa using hsa
      simp [hne]

theorem flow_state_congr_stas (m1 m2 : MorseTwt) (a f : Nat) (h : m1.stas = m2.stas) :
    morse_twt_flow_state m1 a f = morse_twt_flow_state m2 a f := by
  unfold morse_twt_flow_state morse_twt_get_sta
  rw [h]

theorem wake_interval_add_shape (m : MorseTwt) (r : AgrRef) :
    ∃ W, (morse_twt_agreement_wake_interval_add m r).2 = { m with wake_intervals := W } ∨
      ∃ wt, (morse_twt_agreement_wake_interval_add m r).2
        = { setAgrWakeTime m r wt with wake_intervals := W } := by
  unfold morse_twt_agreement_wake_interval_add
  cases hda : derefAgr m r with
  | none => exact ⟨m.wake_intervals, Or.inl rfl⟩
  | some agr =>
    simp only []
    split
    · exact ⟨m.wake_intervals, Or.inl rfl⟩
    · cases hg : morse_twt_agreement_wake_interval_get m agr.data.wake_interval_us with
      | none => exact ⟨m.wake_intervals, Or.inl rfl⟩
      | some pr =>
        obtain ⟨bs, i⟩ := pr
        simp only []
        split
        · exact ⟨listModify bs i (fun _ => [r]), Or.inr ⟨0, rfl⟩⟩
        · split
          · exact ⟨listModify bs i (fun b => b ++ [r]), Or.inl rfl⟩
          · split
            · next wt bucket' heq =>
              exact ⟨listModify bs i (fun _ => bucket'), Or.inr ⟨wt, rfl⟩⟩
            · exact ⟨m.wake_intervals, Or.inl rfl⟩

theorem wiWalkInsert_total (m : MorseTwt) (ref : AgrRef) (dur : Nat) :
    ∀ bucket : List AgrRef, bucket ≠ [] →
      (∀ r' ∈ bucket, (derefAgr m r').isSome = true) →
      ∃ wt bucket', wiWalkInsert m ref dur bucket = some (wt, bucket') ∧
        ∀ r' ∈ bucket, r' ∈ bucket' := by
  intro bucket
  induction bucket with
  | nil => intro h; exact absurd rfl h
  | cons p t ih =>
    intro _ hvalid
    cases t with
    | nil =>
      obtain ⟨pd, hpd⟩ := Option.isSome_iff_exists.mp (hvalid p (by simp))
      refine ⟨u64add pd.data.wake_time_us pd.data.wake_duration_us, [p, ref], ?_, ?_⟩
      · simp [wiWalkInsert, hpd]
      · intro r' hr'
        simp at hr'
        simp [hr']
    | cons pn rest =>
      obtain ⟨pd, hpd⟩ := Option.isSome_iff_exists.mp (hvalid p (by simp))
      obtain ⟨pnd, hpnd⟩ := Option.isSome_iff_exists.mp (hvalid pn (by simp))
      by_cases hfit : dur ≤ u64sub
          (if pnd.data.wake_time_us % pnd.data.wake_interval_us
              < pd.data.wake_time_us % pd.data.wake_interval_us then
            u64add (pnd.data.wake_time_us % pnd.data.wake_interval_us)
              pd.data.wake_interval_us
          else pnd.data.wake_time_us % pnd.data.wake_interval_us)
          (u64add (pd.data.wake_time_us % pd.data.wake_interval_us)
            pd.data.wake_duration_us)
      · refine ⟨u64add pd.data.wake_time_us pd.data.wake_duration_us,
          p :: ref :: pn :: rest, ?_, ?_⟩
        · simp only [wiWalkInsert, hpd, hpnd]
          rw [if_pos hfit]
        · intro r' hr'
          simp at hr' ⊢
          tauto
      · obtain ⟨wt, bucket', hw, hmem⟩ := ih (by simp)
          (fun r' hr' => hvalid r' (by simp [hr']))
        refine ⟨wt, p :: bucket', ?_, ?_⟩
        · simp only [wiWalkInsert, hpd, hpnd]
          rw [if_neg hfit, hw]
        · intro r' hr'
          rcases List.mem_cons.mp hr' with h | h
          · simp [h]
          · simp [hmem r' h]

theorem listModify_mem_const {α : Type} (l : List α) (i : Nat) (b : α)
    (h : i < l.length) : b ∈ listModify l i (fun _ => b) := by
  induction l generalizing i with
  | nil => simp at h
  | cons a t ih =>
    cases i with
    | zero => simp [listModify]
    | succ n =>
      simp only [listModify, List.mem_cons]
      exact Or.inr (ih n (by simpa using h))

/-- Claim C4 counterexample: with a full 10000us bucket (two agreements of
duration 5000 each) and a new request of duration 8000 that fits no gap,
morse_twt_agreement_wake_interval_add succeeds (appending after the last
agreement) and modifies the bucket, instead of failing with -EBADSLT as the
claim states. -/
theorem morse_twt_wake_interval_add_no_noslot_cex :
    (morse_twt_agreement_wake_interval_add c4_model (1, 2)).1 = 0 ∧
    (morse_twt_agreement_wake_interval_add c4_model (1, 2)).1 ≠ -EBADSLT ∧
    (morse_twt_agreement_wake_interval_add c4_model (1, 2)).2.wake_intervals
      ≠ c4_model.wake_intervals := by
  refine ⟨by decide, by decide, by decide⟩

/-- Claim C4 (amended): placing a REQUEST or SUGGEST agreement into a
non-empty bucket never fails: when no gap between consecutive service
periods is large enough the agreement is appended after the last agreement
(anchored at the end of its service period), the walk always inserts before
reaching the dead -EBADSLT return, every agreement already in the bucket
stays in it, and no other agreement record is modified. -/
theorem morse_twt_wake_interval_add_appends_when_full (m : MorseTwt) (ref : AgrRef)
    (agr : MorseTwtAgreement) (bs : List (List AgrRef)) (i : Nat)
    (hda : derefAgr m ref = some agr)
    (hstate : agr.state = .CONSIDER_REQUEST ∨ agr.state = .CONSIDER_SUGGEST)
    (hcmd : agr.data.cmd = .REQUEST ∨ agr.data.cmd = .SUGGEST)
    (hget : morse_twt_agreement_wake_interval_get m agr.data.wake_interval_us = some (bs, i))
    (hne : bs.getD i [] ≠ [])
    (hilen : i < bs.length)
    (hvalid : ∀ r' ∈ bs.getD i [], (derefAgr m r').isSome = true) :
    (morse_twt_agreement_wake_interval_add m ref).1 = 0 ∧
    (morse_twt_agreement_wake_interval_add m ref).1 ≠ -EBADSLT ∧
    (∀ r' ∈ bs.getD i [],
      ∃ b ∈ (morse_twt_agreement_wake_interval_add m ref).2.wake_intervals, r' ∈ b) ∧
    (∀ r', r' ≠ ref →
      derefAgr (morse_twt_agreement_wake_interval_add m ref).2 r' = derefAgr m r') := by
  obtain ⟨wt, bucket', hw, hmem⟩ := wiWalkInsert_total m ref agr.data.wake_duration_us
    (bs.getD i []) hne hvalid
  have hcmdne : ¬ agr.data.cmd = TwtSetupCmd.DEMAND := by
    rcases hcmd with h | h <;> simp [h]
  have hstne : ¬ (agr.state = MorseTwtState.NO_AGREEMENT ∨
      agr.state = MorseTwtState.AGREEMENT) := by
    rcases hstate with h | h <;> simp [h]
  have hred : morse_twt_agreement_wake_interval_add m ref =
      (0, { setAgrWakeTime m ref wt with wake_intervals := listModify bs i (fun _ => bucket') }) := by
    unfold morse_twt_agreement_wake_interval_add
    rw [hda]
    simp only [hstne, if_false, hget]
    rw [if_neg hne, if_neg hcmdne, hw]
  rw [hred]
  refine ⟨rfl, by simp [EBADSLT], ?_, ?_⟩
  · intro r' hr'
    exact ⟨bucket', listModify_mem_const bs i bucket' hilen, hmem r' hr'⟩
  · intro r' hr'
    have : derefAgr { setAgrWakeTime m ref wt with
        wake_intervals := listModify bs i (fun _ => bucket') } r'
        = derefAgr (setAgrWakeTime m ref wt) r' := rfl
    rw [this]
    unfold setAgrWakeTime
    exact derefAgr_updateAgr_ne m ref.1 ref.2 _ r' (by simpa using hr')

theorem morse_twt_wake_interval_add_appends_when_full_witness :
    (morse_twt_agreement_wake_interval_add c4_model (1, 2)).1 = 0 ∧
    (morse_twt_agreement_wake_interval_add c4_model (1, 2)).1 ≠ -EBADSLT := by
  have h := morse_twt_wake_interval_add_appends_when_full c4_model (1, 2) c4_agrNew
    [[(1, 0), (1, 1)]] 0 (by decide) (by decide) (by decide) (by decide) (by decide)
    (by decide) (by decide)
  exact ⟨h.1, h.2.1⟩

/-- Claim C5: a REQUEST or SUGGEST agreement placed into an empty bucket is
anchored at wake time 0; a second agreement with the same interval placed
after a first one of duration d anchored at 0 is anchored at wake time d
(the end of the first service period), and the two service windows
[0, d) and [d, d + d2) do not overlap. -/
theorem morse_twt_wake_interval_add_anchoring :
    (∀ (m : MorseTwt) (ref : AgrRef) (agr : MorseTwtAgreement)
        (bs : List (List AgrRef)) (i : Nat),
      derefAgr m ref = some agr →
      (agr.state = .CONSIDER_REQUEST ∨ agr.state = .CONSIDER_SUGGEST) →
      morse_twt_agreement_wake_interval_get m agr.data.wake_interval_us = some (bs, i) →
      bs.getD i [] = [] →
      (morse_twt_agreement_wake_interval_add m ref).1 = 0 ∧
      derefAgr (morse_twt_agreement_wake_interval_add m ref).2 ref
        = some { agr with data := { agr.data with wake_time_us := 0 } }) ∧
    (∀ (m : MorseTwt) (ref r1 : AgrRef) (agr a1 : MorseTwtAgreement)
        (bs : List (List AgrRef)) (i : Nat),
      derefAgr m ref = some agr →
      derefAgr m r1 = some a1 →
      r1 ≠ ref →
      (agr.state = .CONSIDER_REQUEST ∨ agr.state = .CONSIDER_SUGGEST) →
      (agr.data.cmd = .REQUEST ∨ agr.data.cmd = .SUGGEST) →
      a1.data.wake_time_us = 0 →
      a1.data.wake_duration_us < 2 ^ 64 →
      morse_twt_agreement_wake_interval_get m agr.data.wake_interval_us = some (bs, i) →
      bs.getD i [] = [r1] →
      (morse_twt_agreement_wake_interval_add m ref).1 = 0 ∧
      derefAgr (morse_twt_agreement_wake_interval_add m ref).2 ref
        = some { agr with data := { agr.data with wake_time_us := a1.data.wake_duration_us } } ∧
      derefAgr (morse_twt_agreement_wake_interval_add m ref).2 r1 = some a1 ∧
      (∀ t : Nat, t < a1.data.wake_duration_us →
        ¬(a1.data.wake_duration_us ≤ t ∧
          t < a1.data.wake_duration_us + agr.data.wake_duration_us))) := by
  constructor
  · intro m ref agr bs i hda hstate hget hempty
    have hstne : ¬ (agr.state = MorseTwtState.NO_AGREEMENT ∨
        agr.state = MorseTwtState.AGREEMENT) := by
      rcases hstate with h | h <;> simp [h]
    have hred : morse_twt_agreement_wake_interval_add m ref =
        (0, { setAgrWakeTime m ref 0 with wake_intervals := listModify bs i (fun _ => [ref]) }) := by
      unfold morse_twt_agreement_wake_interval_add
      rw [hda]
      simp only [hstne, if_false, hget]
      rw [if_pos hempty]
    rw [hred]
    refine ⟨rfl, ?_⟩
    have : derefAgr { setAgrWakeTime m ref 0 with
        wake_intervals := listModify bs i (fun _ => [ref]) } ref
        = derefAgr (setAgrWakeTime m ref 0) ref := rfl
    rw [this]
    unfold setAgrWakeTime
    exact derefAgr_updateAgr_self m ref.1 ref.2 _ agr hda
  · intro m ref r1 agr a1 bs i hda hd1 hne1 hstate hcmd hw0 hdur hget hbucket
    have hstne : ¬ (agr.state = MorseTwtState.NO_AGREEMENT ∨
        agr.state = MorseTwtState.AGREEMENT) := by
      rcases hstate with h | h <;> simp [h]
    have hcmdne : ¬ agr.data.cmd = TwtSetupCmd.DEMAND := by
      rcases hcmd with h | h <;> simp [h]
    have hwt : u64add a1.data.wake_time_us a1.data.wake_duration_us
        = a1.data.wake_duration_us := by
      rw [hw0]
      unfold u64add U64_MOD
      rw [Nat.zero_add]
      exact Nat.mod_eq_of_lt hdur
    have hred : morse_twt_agreement_wake_interval_add m ref =
        (0, { setAgrWakeTime m ref a1.data.wake_duration_us with
              wake_intervals := listModify bs i (fun _ => [r1, ref]) }) := by
      unfold morse_twt_agreement_wake_interval_add
      rw [hda]
      simp only [hstne, if_false, hget]
      rw [if_neg (by rw [hbucket]; simp), if_neg hcmdne]
      rw [hbucket]
      simp only [wiWalkInsert, hd1]
      rw [hwt]
    rw [hred]
    refine ⟨rfl, ?_, ?_, ?_⟩
    · have : derefAgr { setAgrWakeTime m ref a1.data.wake_duration_us with
          wake_intervals := listModify bs i (fun _ => [r1, ref]) } ref
          = derefAgr (setAgrWakeTime m ref a1.data.wake_duration_us) ref := rfl
      rw [this]
      unfold setAgrWakeTime
      exact derefAgr_updateAgr_self m ref.1 ref.2 _ agr hda
    · have : derefAgr { setAgrWakeTime m ref a1.data.wake_duration_us with
          wake_intervals := listModify bs i (fun _ => [r1, ref]) } r1
          = derefAgr (setAgrWakeTime m ref a1.data.wake_duration_us) r1 := rfl
      rw [this]
      unfold setAgrWakeTime
      rw [derefAgr_updateAgr_ne m ref.1 ref.2 _ r1 (by simpa using hne1)]
      exact hd1
    · intro t ht
      omega

theorem morse_twt_wake_interval_add_anchoring_witness :
    (morse_twt_agreement_wake_interval_add c5_model_empty (2, 1)).1 = 0 ∧
    (morse_twt_agreement_wake_interval_add c5_model_one (2, 1)).1 = 0 := by
  refine ⟨?_, ?_⟩
  · exact (morse_twt_wake_interval_add_anchoring.1 c5_model_empty (2, 1) c5_agrNew
      [[]] 0 (by decide) (by decide) (by decide) (by decide)).1
  · exact (morse_twt_wake_interval_add_anchoring.2 c5_model_one (2, 1) (2, 0) c5_agrNew
      c5_agr1 [[(2, 0)]] 0 (by decide) (by decide) (by decide) (by decide) (by decide)
      (by decide) (by decide) (by decide) (by decide)).1

/-! ## Agreement and station removal lemmas -/

theorem listEraseRef_subset (ref : AgrRef) (b : List AgrRef) :
    ∀ x ∈ listEraseRef ref b, x ∈ b := by
  induction b with
  | nil => simp [listEraseRef]
  | cons r t ih =>
    intro x hx
    by_cases h : r = ref
    · simp only [listEraseRef, if_pos h] at hx
      exact List.mem_cons_of_mem r hx
    · simp only [listEraseRef, if_neg h] at hx
      rcases List.mem_cons.mp hx with h1 | h1
      · simp [h1]
      · exact List.mem_cons_of_mem r (ih x h1)

theorem countP_pos_of_mem (r : AgrRef) (b : List AgrRef) (h : r ∈ b) :
    0 < b.countP (fun x => x == r) := by
  rw [List.countP_pos_iff]
  exact ⟨r, h, by simp⟩

theorem countP_eq_zero_iff_not_mem (r : AgrRef) (b : List AgrRef) :
    b.countP (fun x => x == r) = 0 ↔ r ∉ b := by
  rw [List.countP_eq_zero]
  constructor
  · intro h hm
    exact absurd (by simp : (r == r) = true) (by simpa using h r hm)
  · intro h x hx
    simp only [beq_iff_eq]
    intro he
    exact h (he ▸ hx)

theorem countP_listEraseRef (r : AgrRef) (b : List AgrRef) (h : r ∈ b) :
    (listEraseRef r b).countP (fun x => x == r)
      = b.countP (fun x => x == r) - 1 := by
  induction b with
  | nil => simp at h
  | cons a t ih =>
    by_cases ha : a = r
    · simp [listEraseRef, ha, List.countP_cons]
    · have hrt : r ∈ t := by
        rcases List.mem_cons.mp h with h1 | h1
        · exact absurd h1.symm ha
        · exact h1
      have hpa : (a == r) = false := by simpa using ha
      simp only [listEraseRef, if_neg ha, List.countP_cons, hpa, if_false]
      rw [ih hrt]
      have := countP_pos_of_mem r t hrt
      omega

theorem bucketRefCount_cons (r : AgrRef) (b : List AgrRef) (bs : List (List AgrRef)) :
    bucketRefCount r (b :: bs) = b.countP (fun x => x == r) + bucketRefCount r bs := by
  simp [bucketRefCount]

theorem bucketRefCount_eq_zero (r : AgrRef) (bs : List (List AgrRef))
    (h : bucketRefCount r bs = 0) : ∀ b ∈ bs, r ∉ b := by
  induction bs with
  | nil => simp
  | cons b t ih =>
    rw [bucketRefCount_cons] at h
    intro b' hb'
    rcases List.mem_cons.mp hb' with h1 | h1
    · subst h1
      exact (countP_eq_zero_iff_not_mem r b').mp (by omega)
    · exact ih (by omega) b' h1

theorem arb_not_mem (ref : AgrRef) (bs : List (List AgrRef))
    (h : bucketRefCount ref bs ≤ 1) :
    ∀ b ∈ agreement_remove_buckets ref bs, ref ∉ b := by
  induction bs with
  | nil => simp [agreement_remove_buckets]
  | cons b t ih =>
    rw [bucketRefCount_cons] at h
    by_cases hm : ref ∈ b
    · have hpos := countP_pos_of_mem ref b hm
      have hzero : bucketRefCount ref t = 0 := by omega
      have ht := bucketRefCount_eq_zero ref t hzero
      simp only [agreement_remove_buckets, if_pos hm]
      by_cases hE : listEraseRef ref b = []
      · rw [if_pos hE]
        exact ht
      · rw [if_neg hE]
        intro b' hb'
        rcases List.mem_cons.mp hb' with h1 | h1
        · subst h1
          intro hmem
          have hc := countP_pos_of_mem ref _ hmem
          rw [countP_listEraseRef ref b hm] at hc
          omega
        · exact ht b' h1
    · have hz : b.countP (fun x => x == ref) = 0 :=
        (countP_eq_zero_iff_not_mem ref b).mpr hm
      simp only [agreement_remove_buckets, if_neg hm]
      intro b' hb'
      rcases List.mem_cons.mp hb' with h1 | h1
      · subst h1; exact hm
      · exact ih (by omega) b' h1

theorem arb_id_of_not_mem (ref : AgrRef) (bs : List (List AgrRef))
    (h : ∀ b ∈ bs, ref ∉ b) : agreement_remove_buckets ref bs = bs := by
  induction bs with
  | nil => rfl
  | cons b t ih =>
    simp only [agreement_remove_buckets, if_neg (h b (by simp))]
    rw [ih (fun b' hb' => h b' (List.mem_cons_of_mem b hb'))]

theorem arb_not_mem_other (x ref : AgrRef) (bs : List (List AgrRef))
    (h : ∀ b ∈ bs, x ∉ b) :
    ∀ b ∈ agreement_remove_buckets ref bs, x ∉ b := by
  induction bs with
  | nil => simp [agreement_remove_buckets]
  | cons b t ih =>
    have hx := h b (by simp)
    have ht : ∀ b' ∈ t, x ∉ b' := fun b' hb' => h b' (List.mem_cons_of_mem b hb')
    by_cases hm : ref ∈ b
    · simp only [agreement_remove_buckets, if_pos hm]
      by_cases hE : listEraseRef ref b = []
      · rw [if_pos hE]
        exact ht
      · rw [if_neg hE]
        intro b' hb'
        rcases List.mem_cons.mp hb' with h1 | h1
        · subst h1
          intro hmem
          exact hx (listEraseRef_subset ref b x hmem)
        · exact ht b' h1
    · simp only [agreement_remove_buckets, if_neg hm]
      intro b' hb'
      rcases List.mem_cons.mp hb' with h1 | h1
      · subst h1; exact hx
      · exact ih ht b' h1

theorem arb_nonempty (ref : AgrRef) (bs : List (List AgrRef))
    (h : ∀ b ∈ bs, b ≠ []) :
    ∀ b ∈ agreement_remove_buckets ref bs, b ≠ [] := by
  induction bs with
  | nil => simp [agreement_remove_buckets]
  | cons b t ih =>
    have ht : ∀ b' ∈ t, b' ≠ [] := fun b' hb' => h b' (List.mem_cons_of_mem b hb')
    by_cases hm : ref ∈ b
    · simp only [agreement_remove_buckets, if_pos hm]
      by_cases hE : listEraseRef ref b = []
      · rw [if_pos hE]
        exact ht
      · rw [if_neg hE]
        intro b' hb'
        rcases List.mem_cons.mp hb' with h1 | h1
        · subst h1; exact hE
        · exact ht b' h1
    · simp only [agreement_remove_buckets, if_neg hm]
      intro b' hb'
      rcases List.mem_cons.mp hb' with h1 | h1
      · subst h1; exact h _ (by simp)
      · exact ih ht b' h1

theorem arb_keep_of_not_mem (ref : AgrRef) (bs : List (List AgrRef)) (b : List AgrRef)
    (hb : b ∈ bs) (h : ref ∉ b) : b ∈ agreement_remove_buckets ref bs := by
  induction bs with
  | nil => simp at hb
  | cons b0 t ih =>
    rcases List.mem_cons.mp hb with h1 | h1
    · subst h1
      simp only [agreement_remove_buckets, if_neg h]
      simp
    · by_cases hm : ref ∈ b0
      · simp only [agreement_remove_buckets, if_pos hm]
        by_cases hE : listEraseRef ref b0 = []
        · rw [if_pos hE]; exact h1
        · rw [if_neg hE]; exact List.mem_cons_of_mem _ h1
      · simp only [agreement_remove_buckets, if_neg hm]
        exact List.mem_cons_of_mem _ (ih h1)

theorem bucketRefCount_pos_of_mem (r : AgrRef) (bs : List (List AgrRef))
    (b : List AgrRef) (hb : b ∈ bs) (hm : r ∈ b) : 0 < bucketRefCount r bs := by
  induction bs with
  | nil => simp at hb
  | cons b0 t ih =>
    rw [bucketRefCount_cons]
    rcases List.mem_cons.mp hb with h1 | h1
    · subst h1
      have := countP_pos_of_mem r b hm
      omega
    · have := ih h1
      omega

theorem arb_keep_erased (ref : AgrRef) (bs : List (List AgrRef)) (b : List AgrRef)
    (hc : bucketRefCount ref bs ≤ 1) (hb : b ∈ bs) (hm : ref ∈ b)
    (hne : listEraseRef ref b ≠ []) :
    listEraseRef ref b ∈ agreement_remove_buckets ref bs := by
  induction bs with
  | nil => simp at hb
  | cons b0 t ih =>
    rw [bucketRefCount_cons] at hc
    rcases List.mem_cons.mp hb with h1 | h1
    · subst h1
      simp only [agreement_remove_buckets, if_pos hm, if_neg hne]
      simp
    · have hposT := bucketRefCount_pos_of_mem ref t b h1 hm
      have hz : b0.countP (fun x => x == ref) = 0 := by omega
      have hm0 : ref ∉ b0 := (countP_eq_zero_iff_not_mem ref b0).mp hz
      simp only [agreement_remove_buckets, if_neg hm0]
      exact List.mem_cons_of_mem _ (ih (by omega) h1)

theorem fold_remove_stas (addr : Nat) (l : List Nat) :
    ∀ acc : MorseTwt,
      (l.foldl (fun a i => morse_twt_agreement_remove a (addr, i)) acc).stas = acc.stas := by
  induction l with
  | nil => intro acc; rfl
  | cons i t ih => intro acc; rw [List.foldl_cons, ih]; rfl

theorem fold_remove_tx (addr : Nat) (l : List Nat) :
    ∀ acc : MorseTwt,
      (l.foldl (fun a i => morse_twt_agreement_remove a (addr, i)) acc).tx = acc.tx := by
  induction l with
  | nil => intro acc; rfl
  | cons i t ih => intro acc; rw [List.foldl_cons, ih]; rfl

theorem fold_remove_buckets_id (addr : Nat) (l : List Nat) :
    ∀ acc : MorseTwt, (∀ i ∈ l, ∀ b ∈ acc.wake_intervals, (addr, i) ∉ b) →
      (l.foldl (fun a i => morse_twt_agreement_remove a (addr, i)) acc).wake_intervals
        = acc.wake_intervals := by
  induction l with
  | nil => intro acc _; rfl
  | cons i t ih =>
    intro acc h
    rw [List.foldl_cons]
    have hid : morse_twt_agreement_remove acc (addr, i) =
        { acc with wake_intervals := acc.wake_intervals } := by
      unfold morse_twt_agreement_remove
      rw [arb_id_of_not_mem _ _ (h i (by simp))]
    rw [hid]
    exact ih _ (fun j hj b hb => h j (List.mem_cons_of_mem i hj) b hb)

theorem updateSta_singleton (x : MorseTwtSta) (W : List (List AgrRef))
    (T E F : List MorseTwtEvent) (a : Nat) (f : MorseTwtSta → MorseTwtSta)
    (h : x.addr = a) :
    updateSta ⟨[x], W, T, E, F⟩ a f = ⟨[f x], W, T, E, F⟩ := by
  unfold updateSta
  simp [h]

/-- Claim C9: when a flow agreement returns to NO_AGREEMENT (here through
morse_twt_enter_state with target NO_AGREEMENT), the agreement is removed
from its wake-interval bucket, no bucket is left empty (an emptied bucket is
destroyed, untouched buckets and erased-but-non-empty buckets survive), and
the station record is removed exactly when all of its flow agreements are in
state NO_AGREEMENT. -/
theorem morse_twt_no_agreement_cleanup (sta : MorseTwtSta) (flow : Nat)
    (B : List (List AgrRef)) (T E F : List MorseTwtEvent)
    (hflow : flow < MORSE_TWT_AGREEMENTS_MAX_PER_STA)
    (hlen : sta.agreements.length = MORSE_TWT_AGREEMENTS_MAX_PER_STA)
    (hcnt : bucketRefCount (sta.addr, flow) B ≤ 1)
    (hne : ∀ b ∈ B, b ≠ [])
    (hoth : ∀ i, i ≠ flow → (sta.agreements.getD i default).state = .NO_AGREEMENT →
      ∀ b ∈ B, (sta.addr, i) ∉ b) :
    (∀ b ∈ (morse_twt_enter_state ⟨[sta], B, T, E, F⟩ sta.addr
        ⟨sta.addr, flow, .teardown⟩ .NO_AGREEMENT).2.wake_intervals, (sta.addr, flow) ∉ b) ∧
    (∀ b ∈ (morse_twt_enter_state ⟨[sta], B, T, E, F⟩ sta.addr
        ⟨sta.addr, flow, .teardown⟩ .NO_AGREEMENT).2.wake_intervals, b ≠ []) ∧
    (∀ b ∈ B, (sta.addr, flow) ∉ b →
      b ∈ (morse_twt_enter_state ⟨[sta], B, T, E, F⟩ sta.addr
        ⟨sta.addr, flow, .teardown⟩ .NO_AGREEMENT).2.wake_intervals) ∧
    (∀ b ∈ B, (sta.addr, flow) ∈ b → listEraseRef (sta.addr, flow) b ≠ [] →
      listEraseRef (sta.addr, flow) b
        ∈ (morse_twt_enter_state ⟨[sta], B, T, E, F⟩ sta.addr
          ⟨sta.addr, flow, .teardown⟩ .NO_AGREEMENT).2.wake_intervals) ∧
    ((morse_twt_enter_state ⟨[sta], B, T, E, F⟩ sta.addr
        ⟨sta.addr, flow, .teardown⟩ .NO_AGREEMENT).2.stas = [] ↔
      ∀ i < MORSE_TWT_AGREEMENTS_MAX_PER_STA, i ≠ flow →
        (sta.agreements.getD i default).state = .NO_AGREEMENT) := by
  set g1 : MorseTwtAgreement → MorseTwtAgreement :=
    fun a => { a with state := MorseTwtState.NO_AGREEMENT } with hg1def
  set sta1 : MorseTwtSta := { sta with agreements := listModify sta.agreements flow g1 }
    with hsta1def
  have hg : morse_twt_get_sta ⟨[sta], B, T, E, F⟩ sta.addr = some sta := by
    rw [get_sta_singleton]
    simp
  have hsta1 : setAgrState ⟨[sta], B, T, E, F⟩ sta.addr flow .NO_AGREEMENT
      = ⟨[sta1], B, T, E, F⟩ := by
    unfold setAgrState updateAgr
    exact updateSta_singleton sta B T E F sta.addr _ rfl
  have hg1 : morse_twt_get_sta (⟨[sta1], B, T, E, F⟩ : MorseTwt) sta.addr = some sta1 := by
    rw [get_sta_singleton]
    rw [if_pos rfl]
  have hcheck : (((List.range MORSE_TWT_AGREEMENTS_MAX_PER_STA).all
      (fun i => ((sta1.agreements.getD i default).state == MorseTwtState.NO_AGREEMENT))) = true)
      ↔ (∀ i < MORSE_TWT_AGREEMENTS_MAX_PER_STA, i ≠ flow →
          (sta.agreements.getD i default).state = .NO_AGREEMENT) := by
    rw [List.all_eq_true]
    constructor
    · intro h i hi hne'
      have hh := h i (List.mem_range.mpr hi)
      rw [hsta1def] at hh
      simp only [] at hh
      rw [listModify_getD_ne _ _ _ _ _ (Ne.symm hne')] at hh
      simpa using hh
    · intro h i hi
      have hi' := List.mem_range.mp hi
      rw [hsta1def]
      simp only []
      rcases eq_or_ne i flow with rfl | hne'
      · rw [listModify_getD_self _ _ _ _ (by rw [hlen]; exact hflow)]
        rw [hg1def]
        simp
      · rw [listModify_getD_ne _ _ _ _ _ (Ne.symm hne')]
        simpa using h i hi' hne'
  have hstep : (morse_twt_enter_state ⟨[sta], B, T, E, F⟩ sta.addr
      ⟨sta.addr, flow, .teardown⟩ .NO_AGREEMENT).2
      = (morse_twt_sta_agreement_remove (⟨[sta1], B, T, E, F⟩ : MorseTwt) sta.addr flow).2 := by
    unfold morse_twt_enter_state
    rw [hg]
    dsimp only
    unfold morse_twt_enter_state_terminal
    rw [hg]
    dsimp only
    rw [hsta1]
  rw [hstep]
  unfold morse_twt_sta_agreement_remove
  rw [hg1]
  dsimp only
  rw [if_neg (by omega)]
  have hrm : morse_twt_agreement_remove (⟨[sta1], B, T, E, F⟩ : MorseTwt) (sta.addr, flow)
      = ⟨[sta1], agreement_remove_buckets (sta.addr, flow) B, T, E, F⟩ := by
    unfold morse_twt_agreement_remove
    rfl
  rw [hrm]
  by_cases hall : (((List.range MORSE_TWT_AGREEMENTS_MAX_PER_STA).all
      (fun i => ((sta1.agreements.getD i default).state == MorseTwtState.NO_AGREEMENT))) = true)
  · rw [if_pos hall]
    have hstates := hcheck.mp hall
    have hnomem : ∀ i ∈ List.range MORSE_TWT_AGREEMENTS_MAX_PER_STA,
        ∀ b ∈ (⟨[sta1], agreement_remove_buckets (sta.addr, flow) B, T, E, F⟩ :
          MorseTwt).wake_intervals, (sta.addr, i) ∉ b := by
      intro i hi b hb
      rcases eq_or_ne i flow with rfl | hne'
      · exact arb_not_mem _ _ hcnt b hb
      · exact arb_not_mem_other _ _ _
          (hoth i hne' (hstates i (List.mem_range.mp hi) hne')) b hb
    have hg2 : morse_twt_get_sta
        (⟨[sta1], agreement_remove_buckets (sta.addr, flow) B, T, E, F⟩ : MorseTwt) sta.addr
        = some sta1 := by
      rw [get_sta_singleton]
      rw [if_pos rfl]
    unfold morse_twt_sta_remove
    rw [hg2]
    dsimp only
    rw [fold_remove_buckets_id _ _ _ hnomem]
    rw [fold_remove_stas]
    dsimp only
    refine ⟨?_, ?_, ?_, ?_, ?_⟩
    · exact arb_not_mem _ _ hcnt
    · exact arb_nonempty _ _ hne
    · intro b hb hnm
      exact arb_keep_of_not_mem _ _ b hb hnm
    · intro b hb hm hne'
      exact arb_keep_erased _ _ b hcnt hb hm hne'
    · constructor
      · intro _
        exact hstates
      · intro _
        simp [List.eraseP_cons]
  · rw [if_neg hall]
    refine ⟨?_, ?_, ?_, ?_, ?_⟩
    · exact arb_not_mem _ _ hcnt
    · exact arb_nonempty _ _ hne
    · intro b hb hnm
      exact arb_keep_of_not_mem _ _ b hb hnm
    · intro b hb hm hne'
      exact arb_keep_erased _ _ b hcnt hb hm hne'
    · constructor
      · intro heq
        simp at heq
      · intro hstates
        exact absurd (hcheck.mpr hstates) hall

theorem morse_twt_no_agreement_cleanup_witness :
    (∀ b ∈ (morse_twt_enter_state w9_model 3
        ⟨3, 1, .teardown⟩ .NO_AGREEMENT).2.wake_intervals, ((3 : Nat), (1 : Nat)) ∉ b) ∧
    ((morse_twt_enter_state w9_model 3 ⟨3, 1, .teardown⟩ .NO_AGREEMENT).2.stas = [] ↔
      ∀ i < MORSE_TWT_AGREEMENTS_MAX_PER_STA, i ≠ 1 →
        (w9_sta.agreements.getD i default).state = .NO_AGREEMENT) := by
  have h := morse_twt_no_agreement_cleanup w9_sta 1 [[(3, 1)]] [] [] []
    (by decide) (by decide) (by decide) (by decide)
    (by
      intro i hne _ b hb
      simp only [List.mem_singleton] at hb
      subst hb
      intro hmem
      simp only [List.mem_singleton, Prod.mk.injEq] at hmem
      exact hne hmem.2)
  exact ⟨h.1, h.2.2.2.2⟩

/-! ## State machine lemmas for the setup decisions -/

theorem get_sta_singleton_self (x : MorseTwtSta) (W : List (List AgrRef))
    (T E F : List MorseTwtEvent) (addr : Nat) (hx : x.addr = addr) :
    morse_twt_get_sta ⟨[x], W, T, E, F⟩ addr = some x := by
  rw [get_sta_singleton, if_pos hx]

theorem stateAt_listModify_dataonly (l : List MorseTwtAgreement) (flow : Nat)
    (g : MorseTwtAgreement → MorseTwtAgreement) (hg : ∀ a, (g a).state = a.state) :
    ((listModify l flow g).getD flow default).state = (l.getD flow default).state := by
  by_cases h : flow < l.length
  · rw [listModify_getD_self _ _ _ _ h, hg]
  · rw [listModify_ge _ _ _ (by omega)]

theorem fold_remove_frames (addr : Nat) (l : List Nat) :
    ∀ acc : MorseTwt,
      (l.foldl (fun a i => morse_twt_agreement_remove a (addr, i)) acc).sent_frames
        = acc.sent_frames := by
  induction l with
  | nil => intro acc; rfl
  | cons i t ih => intro acc; rw [List.foldl_cons, ih]; rfl

theorem sar_singleton_spec (y : MorseTwtSta) (addr : Nat) (W : List (List AgrRef))
    (T E F : List MorseTwtEvent) (flow : Nat) (hy : y.addr = addr)
    (hflow : flow < MORSE_TWT_AGREEMENTS_MAX_PER_STA)
    (hNO : (y.agreements.getD flow default).state = .NO_AGREEMENT) :
    morse_twt_flow_state (morse_twt_sta_agreement_remove ⟨[y], W, T, E, F⟩ addr flow).2
      addr flow = .NO_AGREEMENT ∧
    (morse_twt_sta_agreement_remove ⟨[y], W, T, E, F⟩ addr flow).2.sent_frames = F := by
  have hg : morse_twt_get_sta ⟨[y], W, T, E, F⟩ addr = some y :=
    get_sta_singleton_self y W T E F addr hy
  unfold morse_twt_sta_agreement_remove
  rw [hg]
  dsimp only
  rw [if_neg (by omega)]
  have hrm : morse_twt_agreement_remove (⟨[y], W, T, E, F⟩ : MorseTwt) (addr, flow)
      = ⟨[y], agreement_remove_buckets (addr, flow) W, T, E, F⟩ := rfl
  rw [hrm]
  split
  · unfold morse_twt_sta_remove
    rw [get_sta_singleton_self y _ T E F addr hy]
    dsimp only
    rw [fold_remove_stas, fold_remove_frames]
    dsimp only
    constructor
    · unfold morse_twt_flow_state morse_twt_get_sta
      have : ([y].eraseP (fun s => s.addr == addr)) = [] := by
        simp [List.eraseP_cons, hy]
      rw [this]
      rfl
    · rfl
  · constructor
    · unfold morse_twt_flow_state
      rw [get_sta_singleton_self y _ T E F addr hy]
      exact hNO
    · rfl

theorem terminal_agreement_spec (y : MorseTwtSta) (addr : Nat) (W : List (List AgrRef))
    (T E F : List MorseTwtEvent) (flow : Nat) (cmd0 : TwtSetupCmd)
    (dnew : MorseTwtAgreementData) (hy : y.addr = addr)
    (hflow : flow < MORSE_TWT_AGREEMENTS_MAX_PER_STA)
    (hlen : y.agreements.length = MORSE_TWT_AGREEMENTS_MAX_PER_STA) :
    ∃ y', morse_twt_enter_state_terminal ⟨[y], W, T, E, F⟩ addr
        ⟨addr, flow, .setup cmd0 dnew⟩ .AGREEMENT = (0, ⟨[y'], W, T, E, F⟩) ∧
      y'.addr = addr ∧ (y'.agreements.getD flow default).state = .AGREEMENT := by
  have hg : morse_twt_get_sta ⟨[y], W, T, E, F⟩ addr = some y :=
    get_sta_singleton_self y W T E F addr hy
  set y1 : MorseTwtSta := { y with agreements := listModify y.agreements flow (fun a => { a with state := MorseTwtState.AGREEMENT }) }
    with hy1
  have hset : setAgrState ⟨[y], W, T, E, F⟩ addr flow .AGREEMENT = ⟨[y1], W, T, E, F⟩ := by
    unfold setAgrState updateAgr
    exact updateSta_singleton y W T E F addr _ hy
  have hg1 : morse_twt_get_sta ⟨[y1], W, T, E, F⟩ addr = some y1 :=
    get_sta_singleton_self y1 W T E F addr hy
  set y2 : MorseTwtSta := { y1 with agreements := listModify y1.agreements flow (fun a => { a with data := dnew }) }
    with hy2
  have hadd : morse_twt_sta_agreement_add ⟨[y1], W, T, E, F⟩ addr flow dnew
      = (0, ⟨[y2], W, T, E, F⟩) := by
    unfold morse_twt_sta_agreement_add
    rw [hg1]
    dsimp only
    rw [if_neg (by omega)]
    unfold updateAgr
    rw [updateSta_singleton y1 W T E F addr _ hy]
  refine ⟨y2, ?_, hy, ?_⟩
  · unfold morse_twt_enter_state_terminal
    rw [hg]
    dsimp only
    rw [hset]
    rw [hadd]
  · rw [hy2, hy1]
    dsimp only
    rw [stateAt_listModify_dataonly _ flow (fun a => { a with data := dnew }) (fun a => rfl)]
    rw [listModify_getD_self _ _ _ _ (by rw [hlen]; exact hflow)]

theorem terminal_no_agreement_spec (y : MorseTwtSta) (addr : Nat) (W : List (List AgrRef))
    (T E F : List MorseTwtEvent) (flow : Nat) (body : MorseTwtEventBody)
    (hy : y.addr = addr) (hflow : flow < MORSE_TWT_AGREEMENTS_MAX_PER_STA)
    (hlen : y.agreements.length = MORSE_TWT_AGREEMENTS_MAX_PER_STA) :
    morse_twt_flow_state (morse_twt_enter_state_terminal ⟨[y], W, T, E, F⟩ addr
      ⟨addr, flow, body⟩ .NO_AGREEMENT).2 addr flow = .NO_AGREEMENT ∧
    (morse_twt_enter_state_terminal ⟨[y], W, T, E, F⟩ addr
      ⟨addr, flow, body⟩ .NO_AGREEMENT).2.sent_frames = F := by
  have hg : morse_twt_get_sta ⟨[y], W, T, E, F⟩ addr = some y :=
    get_sta_singleton_self y W T E F addr hy
  set y1 : MorseTwtSta := { y with agreements := listModify y.agreements flow (fun a => { a with state := MorseTwtState.NO_AGREEMENT }) }
    with hy1
  have hset : setAgrState ⟨[y], W, T, E, F⟩ addr flow .NO_AGREEMENT
      = ⟨[y1], W, T, E, F⟩ := by
    unfold setAgrState updateAgr
    exact updateSta_singleton y W T E F addr _ hy
  have hNO1 : (y1.agreements.getD flow default).state = .NO_AGREEMENT := by
    rw [hy1]
    dsimp only
    rw [listModify_getD_self _ _ _ _ (by rw [hlen]; exact hflow)]
  have hstep : morse_twt_enter_state_terminal ⟨[y], W, T, E, F⟩ addr
      ⟨addr, flow, body⟩ .NO_AGREEMENT
      = (0, (morse_twt_sta_agreement_remove ⟨[y1], W, T, E, F⟩ addr flow).2) := by
    unfold morse_twt_enter_state_terminal
    rw [hg]
    dsimp only
    rw [hset]
  rw [hstep]
  exact sar_singleton_spec y1 addr W T E F flow hy hflow hNO1

theorem dequeue_accept_spec (z : MorseTwtSta) (addr : Nat) (W : List (List AgrRef))
    (T E F : List MorseTwtEvent) (flow : Nat) (dnew : MorseTwtAgreementData)
    (hz : z.addr = addr) (hflow : flow < MORSE_TWT_AGREEMENTS_MAX_PER_STA)
    (hlen : z.agreements.length = MORSE_TWT_AGREEMENTS_MAX_PER_STA)
    (hst : (z.agreements.getD flow default).state = .CONSIDER_REQUEST ∨
      (z.agreements.getD flow default).state = .CONSIDER_SUGGEST) :
    morse_twt_flow_state (morse_twt_dequeue_tx_response ⟨[z], W, T, E, F⟩
      ⟨addr, flow, .setup .ACCEPT dnew⟩).2 addr flow = .AGREEMENT := by
  have hg : morse_twt_get_sta ⟨[z], W, T, E, F⟩ addr = some z :=
    get_sta_singleton_self z W T E F addr hz
  obtain ⟨y', hy'eq, hy'addr, hy'st⟩ :=
    terminal_agreement_spec z addr W T E F flow .ACCEPT dnew hz hflow hlen
  have henter : morse_twt_enter_state ⟨[z], W, T, E, F⟩ addr
      ⟨addr, flow, .setup .ACCEPT dnew⟩ .AGREEMENT = (0, ⟨[y'], W, T, E, F⟩) := by
    unfold morse_twt_enter_state
    rw [hg]
    dsimp only
    exact hy'eq
  have hdq : morse_twt_dequeue_tx_response ⟨[z], W, T, E, F⟩
      ⟨addr, flow, .setup .ACCEPT dnew⟩ = (0, ⟨[y'], W, T, E, F⟩) := by
    unfold morse_twt_dequeue_tx_response
    rw [hg]
    dsimp only
    rcases hst with h | h <;> rw [h] <;> dsimp only <;>
      rw [if_pos rfl] <;> exact henter
  rw [hdq]
  unfold morse_twt_flow_state
  rw [get_sta_singleton_self y' W T E F addr hy'addr]
  exact hy'st

theorem dequeue_reject_spec (z : MorseTwtSta) (addr : Nat) (W : List (List AgrRef))
    (T E F : List MorseTwtEvent) (flow : Nat) (dnew : MorseTwtAgreementData)
    (hz : z.addr = addr) (hflow : flow < MORSE_TWT_AGREEMENTS_MAX_PER_STA)
    (hlen : z.agreements.length = MORSE_TWT_AGREEMENTS_MAX_PER_STA)
    (hst : (z.agreements.getD flow default).state = .CONSIDER_DEMAND) :
    morse_twt_flow_state (morse_twt_dequeue_tx_response ⟨[z], W, T, E, F⟩
      ⟨addr, flow, .setup .REJECT dnew⟩).2 addr flow = .NO_AGREEMENT := by
  have hg : morse_twt_get_sta ⟨[z], W, T, E, F⟩ addr = some z :=
    get_sta_singleton_self z W T E F addr hz
  have hterm := terminal_no_agreement_spec z addr W T E F flow (.setup .REJECT dnew)
    hz hflow hlen
  have henter : (morse_twt_enter_state ⟨[z], W, T, E, F⟩ addr
      ⟨addr, flow, .setup .REJECT dnew⟩ .NO_AGREEMENT).2
      = (morse_twt_enter_state_terminal ⟨[z], W, T, E, F⟩ addr
        ⟨addr, flow, .setup .REJECT dnew⟩ .NO_AGREEMENT).2 := by
    unfold morse_twt_enter_state
    rw [hg]
  have hdq : (morse_twt_dequeue_tx_response ⟨[z], W, T, E, F⟩
      ⟨addr, flow, .setup .REJECT dnew⟩).2
      = (morse_twt_enter_state ⟨[z], W, T, E, F⟩ addr
        ⟨addr, flow, .setup .REJECT dnew⟩ .NO_AGREEMENT).2 := by
    unfold morse_twt_dequeue_tx_response
    rw [hg]
    dsimp only
    rw [hst]
    dsimp only
    rw [if_neg (by simp), if_pos rfl]
  rw [hdq, henter]
  exact hterm.1

theorem send_accept_spec (x : MorseTwtSta) (addr : Nat) (B : List (List AgrRef))
    (T E F : List MorseTwtEvent) (flow : Nat) (cmd0 : TwtSetupCmd)
    (d : MorseTwtAgreementData) (hx : x.addr = addr)
    (hflow : flow < MORSE_TWT_AGREEMENTS_MAX_PER_STA)
    (hlen : x.agreements.length = MORSE_TWT_AGREEMENTS_MAX_PER_STA)
    (hconsider : (x.agreements.getD flow default).state = .CONSIDER_REQUEST ∨
      (x.agreements.getD flow default).state = .CONSIDER_SUGGEST) :
    (morse_twt_send_accept ⟨[x], B, T, E, F⟩ addr ⟨addr, flow, .setup cmd0 d⟩).1 = 0 ∧
    (if x.action_is_pending then
      ∃ d', (morse_twt_send_accept ⟨[x], B, T, E, F⟩ addr
            ⟨addr, flow, .setup cmd0 d⟩).2.sent_frames
          = F ++ [⟨addr, flow, .setup .ACCEPT d'⟩] ∧
        morse_twt_flow_state (morse_twt_send_accept ⟨[x], B, T, E, F⟩ addr
          ⟨addr, flow, .setup cmd0 d⟩).2 addr flow = .AGREEMENT
    else
      ∃ d', (morse_twt_send_accept ⟨[x], B, T, E, F⟩ addr
            ⟨addr, flow, .setup cmd0 d⟩).2.tx
          = T ++ [⟨addr, flow, .setup .ACCEPT d'⟩] ∧
        morse_twt_flow_state (morse_twt_dequeue_tx_response
          (morse_twt_send_accept ⟨[x], B, T, E, F⟩ addr ⟨addr, flow, .setup cmd0 d⟩).2
          ⟨addr, flow, .setup .ACCEPT d'⟩).2 addr flow = .AGREEMENT) := by
  have hg : morse_twt_get_sta ⟨[x], B, T, E, F⟩ addr = some x :=
    get_sta_singleton_self x B T E F addr hx
  set x1 : MorseTwtSta := { x with agreements := listModify x.agreements flow (fun a => { a with data := d }) }
    with hx1
  have h1 : updateAgr ⟨[x], B, T, E, F⟩ addr flow (fun a => { a with data := d })
      = ⟨[x1], B, T, E, F⟩ := by
    unfold updateAgr
    exact updateSta_singleton x B T E F addr _ hx
  obtain ⟨W, hsh⟩ := wake_interval_add_shape ⟨[x1], B, T, E, F⟩ (addr, flow)
  have hm2 : ∃ y : MorseTwtSta,
      (morse_twt_agreement_wake_interval_add ⟨[x1], B, T, E, F⟩ (addr, flow)).2
        = ⟨[y], W, T, E, F⟩ ∧ y.addr = addr ∧
      y.agreements.length = MORSE_TWT_AGREEMENTS_MAX_PER_STA ∧
      (y.agreements.getD flow default).state = (x.agreements.getD flow default).state := by
    rcases hsh with hsh | ⟨wt, hsh⟩
    · refine ⟨x1, hsh, hx, ?_, ?_⟩
      · rw [hx1]
        dsimp only
        rw [listModify_length]
        exact hlen
      · rw [hx1]
        dsimp only
        exact stateAt_listModify_dataonly _ flow (fun a => { a with data := d }) (fun a => rfl)
    · have hset : setAgrWakeTime ⟨[x1], B, T, E, F⟩ (addr, flow) wt
          = ⟨[{ x1 with agreements := listModify x1.agreements flow (fun a => { a with data := { a.data with wake_time_us := wt } }) }], B, T, E, F⟩ := by
        unfold setAgrWakeTime updateAgr
        exact updateSta_singleton x1 B T E F addr _ hx
      rw [hset] at hsh
      refine ⟨_, hsh, hx, ?_, ?_⟩
      · dsimp only [hx1]
        rw [listModify_length, listModify_length]
        exact hlen
      · dsimp only [hx1]
        rw [stateAt_listModify_dataonly _ flow (fun a => { a with data := { a.data with wake_time_us := wt } }) (fun a => rfl)]
        exact stateAt_listModify_dataonly _ flow (fun a => { a with data := d }) (fun a => rfl)
  obtain ⟨y, hyeq, hyaddr, hylen, hyst⟩ := hm2
  set z : MorseTwtSta := { y with agreements := listModify y.agreements flow (fun a => { a with data := morse_twt_set_command_data a.data .ACCEPT }) }
    with hzdef
  have h3 : updateAgr ⟨[y], W, T, E, F⟩ addr flow
      (fun a => { a with data := morse_twt_set_command_data a.data .ACCEPT })
      = ⟨[z], W, T, E, F⟩ := by
    unfold updateAgr
    exact updateSta_singleton y W T E F addr _ hyaddr
  have hzaddr : z.addr = addr := hyaddr
  have hzlen : z.agreements.length = MORSE_TWT_AGREEMENTS_MAX_PER_STA := by
    rw [hzdef]
    dsimp only
    rw [listModify_length]
    exact hylen
  have hzst : (z.agreements.getD flow default).state
      = (x.agreements.getD flow default).state := by
    rw [hzdef]
    dsimp only
    rw [stateAt_listModify_dataonly _ flow (fun a => { a with data := morse_twt_set_command_data a.data .ACCEPT }) (fun a => rfl)]
    exact hyst
  set nd : MorseTwtAgreementData := ((derefAgr (⟨[z], W, T, E, F⟩ : MorseTwt) (addr, flow)).map (fun a => a.data)).getD (morse_twt_set_command_data d .ACCEPT)
    with hnd
  have hred : morse_twt_send_accept ⟨[x], B, T, E, F⟩ addr ⟨addr, flow, .setup cmd0 d⟩
      = (if x.action_is_pending then
          (0, (morse_twt_enter_state_terminal
            ⟨[{ z with action_is_pending := false }], W, T, E,
              F ++ [⟨addr, flow, .setup .ACCEPT nd⟩]⟩ addr
            ⟨addr, flow, .setup .ACCEPT nd⟩ .AGREEMENT).2)
        else (0, ⟨[z], W, T ++ [⟨addr, flow, .setup .ACCEPT nd⟩], E, F⟩)) := by
    unfold morse_twt_send_accept
    dsimp only
    rw [hg]
    dsimp only
    rw [h1, hyeq, h3]
    dsimp only
    rw [← hnd]
    by_cases hp : x.action_is_pending = true
    · rw [if_pos hp, if_pos hp]
      have hups : updateSta (⟨[z], W, T, E,
          F ++ [⟨addr, flow, .setup .ACCEPT nd⟩]⟩ : MorseTwt) addr
          (fun s => { s with action_is_pending := false })
          = ⟨[{ z with action_is_pending := false }], W, T, E,
            F ++ [⟨addr, flow, .setup .ACCEPT nd⟩]⟩ :=
        updateSta_singleton z W T E _ addr _ hzaddr
      rw [hups]
    · rw [if_neg hp, if_neg hp]
  rw [hred]
  by_cases hp : x.action_is_pending = true
  · rw [if_pos hp, if_pos hp]
    obtain ⟨y', hy'eq, hy'addr, hy'st⟩ := terminal_agreement_spec
      { z with action_is_pending := false } addr W T E
      (F ++ [⟨addr, flow, .setup .ACCEPT nd⟩]) flow .ACCEPT nd hzaddr hflow hzlen
    refine ⟨rfl, nd, ?_, ?_⟩
    · rw [hy'eq]
    · rw [hy'eq]
      unfold morse_twt_flow_state
      rw [get_sta_singleton_self y' W T E _ addr hy'addr]
      exact hy'st
  · rw [if_neg hp, if_neg hp]
    refine ⟨rfl, nd, rfl, ?_⟩
    exact dequeue_accept_spec z addr W (T ++ [⟨addr, flow, .setup .ACCEPT nd⟩]) E F flow
      nd hzaddr hflow hzlen (by rw [hzst]; exact hconsider)

theorem send_reject_spec (x : MorseTwtSta) (addr : Nat) (B : List (List AgrRef))
    (T E F : List MorseTwtEvent) (flow : Nat) (cmd0 : TwtSetupCmd)
    (d : MorseTwtAgreementData) (hx : x.addr = addr)
    (hflow : flow < MORSE_TWT_AGREEMENTS_MAX_PER_STA)
    (hlen : x.agreements.length = MORSE_TWT_AGREEMENTS_MAX_PER_STA) :
    (morse_twt_send_reject ⟨[x], B, T, E, F⟩ addr ⟨addr, flow, .setup cmd0 d⟩).1 = 0 ∧
    (if x.action_is_pending then
      (morse_twt_send_reject ⟨[x], B, T, E, F⟩ addr
          ⟨addr, flow, .setup cmd0 d⟩).2.sent_frames
        = F ++ [⟨addr, flow, .setup .REJECT (morse_twt_set_command_data d .REJECT)⟩] ∧
      morse_twt_flow_state (morse_twt_send_reject ⟨[x], B, T, E, F⟩ addr
        ⟨addr, flow, .setup cmd0 d⟩).2 addr flow = .NO_AGREEMENT
    else
      morse_twt_send_reject ⟨[x], B, T, E, F⟩ addr ⟨addr, flow, .setup cmd0 d⟩
        = (0, ⟨[x], B,
            T ++ [⟨addr, flow, .setup .REJECT (morse_twt_set_command_data d .REJECT)⟩],
            E, F⟩)) := by
  have hg : morse_twt_get_sta ⟨[x], B, T, E, F⟩ addr = some x :=
    get_sta_singleton_self x B T E F addr hx
  have hred : morse_twt_send_reject ⟨[x], B, T, E, F⟩ addr ⟨addr, flow, .setup cmd0 d⟩
      = (if x.action_is_pending then
          (0, (morse_twt_enter_state_terminal
            ⟨[{ x with action_is_pending := false }], B, T, E,
              F ++ [⟨addr, flow, .setup .REJECT (morse_twt_set_command_data d .REJECT)⟩]⟩
            addr ⟨addr, flow, .setup .REJECT (morse_twt_set_command_data d .REJECT)⟩
            .NO_AGREEMENT).2)
        else (0, ⟨[x], B,
          T ++ [⟨addr, flow, .setup .REJECT (morse_twt_set_command_data d .REJECT)⟩],
          E, F⟩)) := by
    unfold morse_twt_send_reject
    rw [hg]
    dsimp only
    by_cases hp : x.action_is_pending = true
    · rw [if_pos hp, if_pos hp]
      have hups : updateSta (⟨[x], B, T, E,
          F ++ [⟨addr, flow, .setup .REJECT (morse_twt_set_command_data d .REJECT)⟩]⟩ :
            MorseTwt) addr (fun s => { s with action_is_pending := false })
          = ⟨[{ x with action_is_pending := false }], B, T, E,
            F ++ [⟨addr, flow, .setup .REJECT (morse_twt_set_command_data d .REJECT)⟩]⟩ :=
        updateSta_singleton x B T E _ addr _ hx
      rw [hups]
    · rw [if_neg hp, if_neg hp]
  rw [hred]
  by_cases hp : x.action_is_pending = true
  · rw [if_pos hp, if_pos hp]
    have hterm := terminal_no_agreement_spec { x with action_is_pending := false } addr
      B T E (F ++ [⟨addr, flow, .setup .REJECT (morse_twt_set_command_data d .REJECT)⟩])
      flow (.setup .REJECT (morse_twt_set_command_data d .REJECT)) hx hflow hlen
    exact ⟨rfl, hterm.2, hterm.1⟩
  · rw [if_neg hp, if_neg hp]
    exact ⟨rfl, rfl⟩

/-- Claim C6: on a responder, a setup event for a flow in NO_AGREEMENT with
command Request or Suggest is accepted: an Accept response is produced (as
an action frame when a dialog is pending, otherwise on the response tx
queue) and the flow reaches AGREEMENT once the accept is delivered; a setup
event with command Demand or Grouping is rejected: a Reject response is
produced and the flow is back in NO_AGREEMENT once the reject is
delivered. -/
theorem morse_twt_no_agreement_setup_outcomes (sta : MorseTwtSta) (flow : Nat)
    (cmd : TwtSetupCmd) (d : MorseTwtAgreementData)
    (B : List (List AgrRef)) (T E F : List MorseTwtEvent)
    (hflow : flow < MORSE_TWT_AGREEMENTS_MAX_PER_STA)
    (hlen : sta.agreements.length = MORSE_TWT_AGREEMENTS_MAX_PER_STA)
    (hstate : (sta.agreements.getD flow default).state = .NO_AGREEMENT) :
    ((cmd = .REQUEST ∨ cmd = .SUGGEST) →
      (morse_twt_handle_event_in_no_agreement ⟨[sta], B, T, E, F⟩
        ⟨sta.addr, flow, .setup cmd d⟩).1 = 0 ∧
      (if sta.action_is_pending then
        ∃ d', (morse_twt_handle_event_in_no_agreement ⟨[sta], B, T, E, F⟩
            ⟨sta.addr, flow, .setup cmd d⟩).2.sent_frames
            = F ++ [⟨sta.addr, flow, .setup .ACCEPT d'⟩] ∧
          morse_twt_flow_state (morse_twt_handle_event_in_no_agreement ⟨[sta], B, T, E, F⟩
            ⟨sta.addr, flow, .setup cmd d⟩).2 sta.addr flow = .AGREEMENT
      else
        ∃ d', (morse_twt_handle_event_in_no_agreement ⟨[sta], B, T, E, F⟩
            ⟨sta.addr, flow, .setup cmd d⟩).2.tx
            = T ++ [⟨sta.addr, flow, .setup .ACCEPT d'⟩] ∧
          morse_twt_flow_state (morse_twt_dequeue_tx_response
            (morse_twt_handle_event_in_no_agreement ⟨[sta], B, T, E, F⟩
              ⟨sta.addr, flow, .setup cmd d⟩).2
            ⟨sta.addr, flow, .setup .ACCEPT d'⟩).2 sta.addr flow = .AGREEMENT)) ∧
    ((cmd = .DEMAND ∨ cmd = .GROUPING) →
      (morse_twt_handle_event_in_no_agreement ⟨[sta], B, T, E, F⟩
        ⟨sta.addr, flow, .setup cmd d⟩).1 = 0 ∧
      (if sta.action_is_pending then
        (morse_twt_handle_event_in_no_agreement ⟨[sta], B, T, E, F⟩
            ⟨sta.addr, flow, .setup cmd d⟩).2.sent_frames
          = F ++ [⟨sta.addr, flow, .setup .REJECT (morse_twt_set_command_data d .REJECT)⟩] ∧
        morse_twt_flow_state (morse_twt_handle_event_in_no_agreement ⟨[sta], B, T, E, F⟩
          ⟨sta.addr, flow, .setup cmd d⟩).2 sta.addr flow = .NO_AGREEMENT
      else
        (morse_twt_handle_event_in_no_agreement ⟨[sta], B, T, E, F⟩
            ⟨sta.addr, flow, .setup cmd d⟩).2.tx
          = T ++ [⟨sta.addr, flow, .setup .REJECT (morse_twt_set_command_data d .REJECT)⟩] ∧
        morse_twt_flow_state (morse_twt_dequeue_tx_response
          (morse_twt_handle_event_in_no_agreement ⟨[sta], B, T, E, F⟩
            ⟨sta.addr, flow, .setup cmd d⟩).2
          ⟨sta.addr, flow,
            .setup .REJECT (morse_twt_set_command_data d .REJECT)⟩).2 sta.addr flow
          = .NO_AGREEMENT)) := by
  have hg0 : morse_twt_get_sta ⟨[sta], B, T, E, F⟩ sta.addr = some sta :=
    get_sta_singleton_self sta B T E F sta.addr rfl
  constructor
  · intro hc
    rcases hc with rfl | rfl
    · set staR : MorseTwtSta := { sta with agreements := listModify sta.agreements flow (fun a => { a with state := MorseTwtState.CONSIDER_REQUEST }) }
        with hstaR
      have hset : setAgrState (⟨[sta], B, T, E, F⟩ : MorseTwt) sta.addr flow
          .CONSIDER_REQUEST = ⟨[staR], B, T, E, F⟩ := by
        unfold setAgrState updateAgr
        exact updateSta_singleton sta B T E F sta.addr _ rfl
      have hhandle : morse_twt_handle_event_in_no_agreement ⟨[sta], B, T, E, F⟩
          ⟨sta.addr, flow, .setup .REQUEST d⟩
          = (0, (morse_twt_send_accept ⟨[staR], B, T, E, F⟩ sta.addr
              ⟨sta.addr, flow, .setup .REQUEST d⟩).2) := by
        unfold morse_twt_handle_event_in_no_agreement morse_twt_enter_state
        dsimp only
        rw [hg0]
        dsimp only
        rw [hset]
      obtain ⟨hret, hbody⟩ := send_accept_spec staR sta.addr B T E F flow
        .REQUEST d rfl hflow
        (by rw [hstaR]; dsimp only; rw [listModify_length]; exact hlen)
        (by
          rw [hstaR]
          dsimp only
          rw [listModify_getD_self _ _ _ _ (by rw [hlen]; exact hflow)]
          exact Or.inl rfl)
      refine ⟨by rw [hhandle], ?_⟩
      by_cases hp : sta.action_is_pending = true
      · rw [if_pos hp]
        rw [if_pos hp] at hbody
        obtain ⟨d', h1, h2⟩ := hbody
        exact ⟨d', by rw [hhandle]; exact h1, by rw [hhandle]; exact h2⟩
      · rw [if_neg hp]
        rw [if_neg hp] at hbody
        obtain ⟨d', h1, h2⟩ := hbody
        exact ⟨d', by rw [hhandle]; exact h1, by rw [hhandle]; exact h2⟩
    · set staS : MorseTwtSta := { sta with agreements := listModify sta.agreements flow (fun a => { a with state := MorseTwtState.CONSIDER_SUGGEST }) }
        with hstaS
      have hset : setAgrState (⟨[sta], B, T, E, F⟩ : MorseTwt) sta.addr flow
          .CONSIDER_SUGGEST = ⟨[staS], B, T, E, F⟩ := by
        unfold setAgrState updateAgr
        exact updateSta_singleton sta B T E F sta.addr _ rfl
      have hhandle : morse_twt_handle_event_in_no_agreement ⟨[sta], B, T, E, F⟩
          ⟨sta.addr, flow, .setup .SUGGEST d⟩
          = (0, (morse_twt_send_accept ⟨[staS], B, T, E, F⟩ sta.addr
              ⟨sta.addr, flow, .setup .SUGGEST d⟩).2) := by
        unfold morse_twt_handle_event_in_no_agreement morse_twt_enter_state
        dsimp only
        rw [hg0]
        dsimp only
        rw [hset]
      obtain ⟨hret, hbody⟩ := send_accept_spec staS sta.addr B T E F flow
        .SUGGEST d rfl hflow
        (by rw [hstaS]; dsimp only; rw [listModify_length]; exact hlen)
        (by
          rw [hstaS]
          dsimp only
          rw [listModify_getD_self _ _ _ _ (by rw [hlen]; exact hflow)]
          exact Or.inr rfl)
      refine ⟨by rw [hhandle], ?_⟩
      by_cases hp : sta.action_is_pending = true
      · rw [if_pos hp]
        rw [if_pos hp] at hbody
        obtain ⟨d', h1, h2⟩ := hbody
        exact ⟨d', by rw [hhandle]; exact h1, by rw [hhandle]; exact h2⟩
      · rw [if_neg hp]
        rw [if_neg hp] at hbody
        obtain ⟨d', h1, h2⟩ := hbody
        exact ⟨d', by rw [hhandle]; exact h1, by rw [hhandle]; exact h2⟩
  · intro hc
    set staD : MorseTwtSta := { sta with agreements := listModify sta.agreements flow (fun a => { a with state := MorseTwtState.CONSIDER_DEMAND }) }
      with hstaD
    have hset : setAgrState (⟨[sta], B, T, E, F⟩ : MorseTwt) sta.addr flow
        .CONSIDER_DEMAND = ⟨[staD], B, T, E, F⟩ := by
      unfold setAgrState updateAgr
      exact updateSta_singleton sta B T E F sta.addr _ rfl
    have hlenD : staD.agreements.length = MORSE_TWT_AGREEMENTS_MAX_PER_STA := by
      rw [hstaD]
      dsimp only
      rw [listModify_length]
      exact hlen
    have hstD : (staD.agreements.getD flow default).state = .CONSIDER_DEMAND := by
      rw [hstaD]
      dsimp only
      rw [listModify_getD_self _ _ _ _ (by rw [hlen]; exact hflow)]
    rcases hc with rfl | rfl
    · have hhandle : morse_twt_handle_event_in_no_agreement ⟨[sta], B, T, E, F⟩
          ⟨sta.addr, flow, .setup .DEMAND d⟩
          = (0, (morse_twt_send_reject ⟨[staD], B, T, E, F⟩ sta.addr
              ⟨sta.addr, flow, .setup .DEMAND d⟩).2) := by
        unfold morse_twt_handle_event_in_no_agreement morse_twt_enter_state
        dsimp only
        rw [hg0]
        dsimp only
        rw [hset]
      have hspec := send_reject_spec staD sta.addr B T E F flow .DEMAND d rfl hflow hlenD
      refine ⟨by rw [hhandle], ?_⟩
      by_cases hp : sta.action_is_pending = true
      · rw [if_pos hp]
        have h2 := hspec.2
        rw [if_pos hp] at h2
        exact ⟨by rw [hhandle]; exact h2.1, by rw [hhandle]; exact h2.2⟩
      · rw [if_neg hp]
        have h2 := hspec.2
        rw [if_neg hp] at h2
        constructor
        · rw [hhandle, h2]
        · rw [hhandle, h2]
          exact dequeue_reject_spec staD sta.addr B
            (T ++ [⟨sta.addr, flow, .setup .REJECT (morse_twt_set_command_data d .REJECT)⟩])
            E F flow (morse_twt_set_command_data d .REJECT) rfl hflow hlenD hstD
    · have hhandle : morse_twt_handle_event_in_no_agreement ⟨[sta], B, T, E, F⟩
          ⟨sta.addr, flow, .setup .GROUPING d⟩
          = (0, (morse_twt_send_reject ⟨[staD], B, T, E, F⟩ sta.addr
              ⟨sta.addr, flow, .setup .GROUPING d⟩).2) := by
        unfold morse_twt_handle_event_in_no_agreement morse_twt_enter_state
        dsimp only
        rw [hg0]
        dsimp only
        rw [hset]
      have hspec := send_reject_spec staD sta.addr B T E F flow .GROUPING d rfl hflow hlenD
      refine ⟨by rw [hhandle], ?_⟩
      by_cases hp : sta.action_is_pending = true
      · rw [if_pos hp]
        have h2 := hspec.2
        rw [if_pos hp] at h2
        exact ⟨by rw [hhandle]; exact h2.1, by rw [hhandle]; exact h2.2⟩
      · rw [if_neg hp]
        have h2 := hspec.2
        rw [if_neg hp] at h2
        constructor
        · rw [hhandle, h2]
        · rw [hhandle, h2]
          exact dequeue_reject_spec staD sta.addr B
            (T ++ [⟨sta.addr, flow, .setup .REJECT (morse_twt_set_command_data d .REJECT)⟩])
            E F flow (morse_twt_set_command_data d .REJECT) rfl hflow hlenD hstD

/-- Concrete agreement data for exercising the setup decision. -/
def w6_data : MorseTwtAgreementData :=
  { wake_time_us := 0, wake_interval_us := 100000, wake_duration_us := 8000,
    cmd := .REQUEST }

theorem morse_twt_no_agreement_setup_outcomes_witness :
    (morse_twt_handle_event_in_no_agreement ⟨[w_sta], [], [], [], []⟩
      ⟨w_sta.addr, 2, .setup .REQUEST w6_data⟩).1 = 0 ∧
    ∃ d', (morse_twt_handle_event_in_no_agreement ⟨[w_sta], [], [], [], []⟩
        ⟨w_sta.addr, 2, .setup .REQUEST w6_data⟩).2.tx
        = [] ++ [⟨w_sta.addr, 2, .setup .ACCEPT d'⟩] ∧
      morse_twt_flow_state (morse_twt_dequeue_tx_response
        (morse_twt_handle_event_in_no_agreement ⟨[w_sta], [], [], [], []⟩
          ⟨w_sta.addr, 2, .setup .REQUEST w6_data⟩).2
        ⟨w_sta.addr, 2, .setup .ACCEPT d'⟩).2 w_sta.addr 2 = .AGREEMENT := by
  have h := (morse_twt_no_agreement_setup_outcomes w_sta 2 .REQUEST w6_data [] [] [] []
    (by decide) (by decide) (by decide)).1 (Or.inl rfl)
  refine ⟨h.1, ?_⟩
  have h2 := h.2
  rw [if_neg (by decide)] at h2
  exact h2

end Morse
